import Mathlib

/-!
Shallow embedding of `lightning/mydump/reader.go`.

Bytes are modelled as `Nat` values (`0 ≤ b < 256`); a file is a `List Nat`.
All string literals appearing in the source are ASCII, so `Char.toNat` on a
literal gives the exact byte sequence.  Machine `int64` offsets and sizes are
modelled as `Nat`: all quantities involved (file offsets, buffer sizes) are
non-negative in the source and never near overflow.

Whitespace trimming (`bytes.TrimSpace` / `strings.TrimSpace`) is modelled on
the ASCII whitespace set `\t \n \v \f \r ' '`, which is exactly Go's behaviour
on ASCII input (Go additionally folds U+0085/U+00A0 for multi-byte UTF-8
runes, which cannot occur in the ASCII dump-file grammar handled here).
-/

set_option autoImplicit false

namespace PDReader

/-- ASCII bytes of a string literal. -/
def bytes (s : String) : List Nat := s.toList.map Char.toNat

/-- Go ASCII whitespace predicate used by `TrimSpace`. -/
def goIsSpace (b : Nat) : Bool :=
  decide (b = 32 ∨ b = 9 ∨ b = 10 ∨ b = 11 ∨ b = 12 ∨ b = 13)

/-- Model of `bytes.TrimSpace` / `strings.TrimSpace` on ASCII content. -/
def trimSpace (l : List Nat) : List Nat :=
  ((l.dropWhile goIsSpace).reverse.dropWhile goIsSpace).reverse

/-- Helper for `splitLines`: accumulates the current (reversed) line. -/
def splitLinesAux : List Nat → List Nat → List (List Nat)
  | [], acc => if acc.isEmpty then [] else [acc.reverse]
  | b :: rest, acc =>
    if b = 10 then (acc.reverse ++ [10]) :: splitLinesAux rest []
    else splitLinesAux rest (b :: acc)

/-- The sequence of chunks returned by successive `bufio` `ReadBytes('\n')` /
`ReadString('\n')` calls: each chunk includes its trailing newline, except a
final chunk that ends at end-of-file without one. -/
def splitLines (content : List Nat) : List (List Nat) := splitLinesAux content []

/-- The comment test in `MDDataReader.Read`:
`line[0] == '/' && bytes.HasPrefix(line, "/*") && bytes.HasSuffix(line, "*/")`
(the first conjunct is implied by the second). -/
def isCommentLine (t : List Nat) : Bool :=
  (bytes "/*").isPrefixOf t && (bytes "*/").isSuffixOf t

/-- The annotation test in `MDDataReader.skipAnnotation` (and
`ExportStatement`): `strings.HasPrefix(line, "/*") && strings.HasSuffix(line, "*/;")`. -/
def isAnnotLine (t : List Nat) : Bool :=
  (bytes "/*").isPrefixOf t && (bytes "*/;").isSuffixOf t

/-- ASCII lower-casing of a byte, the case folding RE2's `(?i)` performs on the
ASCII letters making up the pattern `INSERT INTO .* VALUES`. -/
def toLowerByte (b : Nat) : Nat := if 65 ≤ b ∧ b ≤ 90 then b + 32 else b

/-- `okEnd l i j` holds when `l[i:j]` is a full match of
`(?i)INSERT INTO .* VALUES` whose literal tail `" VALUES"` ends at `j`:
the match is at least 19 bytes, ends in a case-insensitive `" VALUES"`, and the
`.*` part (between the two literals) contains no newline. -/
def okEnd (l : List Nat) (i j : Nat) : Bool :=
  decide (i + 19 ≤ j) && decide (j ≤ l.length) &&
  decide (((l.drop (j - 7)).take 7).map toLowerByte = bytes " values") &&
  ((l.drop (i + 12)).take (j - 7 - (i + 12))).all (fun b => b != 10)

/-- The largest match end for a match starting at `i` (greedy `.*`). -/
def gMatchEnd (l : List Nat) (i : Nat) : Option Nat :=
  ((List.range (l.length + 1)).filter (okEnd l i)).getLast?

/-- The (greedy) match of `(?i)INSERT INTO .* VALUES` starting exactly at `i`. -/
def insMatchAt (l : List Nat) (i : Nat) : Option (List Nat) :=
  if ((l.drop i).take 12).map toLowerByte = bytes "insert into " then
    match gMatchEnd l i with
    | some j => some ((l.drop i).take (j - i))
    | none => none
  else none

/-- Model of `insStmtRegex.FindStringIndex` followed by slicing: the leftmost
(then greedy-longest) match of `(?i)INSERT INTO .* VALUES` in the line. -/
def findInsMatch (l : List Nat) : Option (List Nat) :=
  (List.range (l.length + 1)).findSome? (insMatchAt l)

/-- The line loop of `getInsertStatementHeader`: `ReadString('\n')` breaks on
`io.EOF` before the regex is consulted, so a final line that is not
newline-terminated is never examined. -/
def getHeaderGo : List (List Nat) → List Nat
  | [] => []
  | l :: rest =>
    if l.getLast? = some 10 then
      match findInsMatch l with
      | some h => h
      | none => getHeaderGo rest
    else []

/-- Model of `getInsertStatementHeader` (file-open errors are out of scope;
lines are assumed to fit the `defReadBlockSize` lookahead buffer). -/
def getInsertStatementHeader (content : List Nat) : List Nat :=
  getHeaderGo (splitLines content)

/-- The loop of `MDDataReader.skipAnnotation`, reading lines from `offset`.
`ReadString` hitting `io.EOF` (no more newline-terminated data) breaks without
seeking, leaving the handle where the buffered reader drained it:
`max offset contentLen`.  On the first non-annotation newline-terminated line
the handle is explicitly sought to `min (offset + skipSize) contentLen`. -/
def skipAnnotGo (contentLen offset : Nat) : List (List Nat) → Nat → Nat
  | [], _ => max offset contentLen
  | l :: rest, skip =>
    if l.getLast? = some 10 then
      if isAnnotLine (trimSpace l) then skipAnnotGo contentLen offset rest (skip + l.length)
      else min (offset + skip) contentLen
    else max offset contentLen

/-- Model of `MDDataReader.skipAnnotation`, returning `currOffset()`. -/
def skipAnnot (content : List Nat) (offset : Nat) : Nat :=
  skipAnnotGo content.length offset (splitLines (content.drop offset)) 0

/-- Model of the `appendSQL` closure in `MDDataReader.Read`.  `none` stands for
a Go runtime panic: the two log-and-drop branches slice `sql[:10]` resp.
`sql[sqlLen-10:]`, which panics when the (trimmed) statement is shorter than
10 bytes. -/
def appendSQL (header : List Nat) (stmts : List (List Nat)) (sql0 : List Nat) :
    Option (List (List Nat)) :=
  let sql := trimSpace sql0
  if sql.length = 0 then some stmts
  else if header.isPrefixOf sql = false then
    if sql.length < 10 then none else some stmts
  else if sql.length = header.length then some stmts
  else if sql.getLast? = some 59 then some (stmts ++ [sql])
  else if sql.getLast? = some 44 then some (stmts ++ [sql.dropLast ++ [59]])
  else if sql.length < 10 then none else some stmts

/-- Result of the line loop in `MDDataReader.Read`. -/
structure LoopOut where
  stmts : List (List Nat)
  statement : List Nat
  readSize : Nat
  broke : Bool
  deriving DecidableEq, Repr

/-- The line loop of `MDDataReader.Read`.  A comment line `continue`s without
counting towards `readSize`; any other line is appended to the running
statement (prepending the header when the statement is empty and the line
does not already start with it), a statement ending in `;` is emitted, and
once `readSize` reaches `minSize` the loop breaks (`broke = true`, the handle
is then sought to `beginPos + readSize`). -/
def readLoop (header : List Nat) (minSize : Nat) :
    List (List Nat) → List (List Nat) → List Nat → Nat → Option LoopOut
  | [], stmts, statement, readSize => some ⟨stmts, statement, readSize, false⟩
  | l :: rest, stmts, statement, readSize =>
    let t := trimSpace l
    if t.length ≠ 0 ∧ isCommentLine t = true then
      readLoop header minSize rest stmts statement readSize
    else
      let next : Option (List (List Nat) × List Nat) :=
        if t.length = 0 then some (stmts, statement)
        else
          let st1 := if statement.length = 0 ∧ header.isPrefixOf t = false
                     then header ++ t else statement ++ t
          if st1.getLast? = some 59 then
            match appendSQL header stmts st1 with
            | none => none
            | some s => some (s, [])
          else some (stmts, st1)
      match next with
      | none => none
      | some (s, st) =>
        if minSize ≤ readSize + l.length then some ⟨s, st, readSize + l.length, true⟩
        else readLoop header minSize rest s st (readSize + l.length)

/-- Outcome of one `MDDataReader.Read` call. -/
inductive ReadResult where
  /-- `return nil, io.EOF` (the call began at or past file size). -/
  | eof : ReadResult
  /-- a Go runtime panic inside `appendSQL`. -/
  | panicked : ReadResult
  /-- emitted statements plus the handle position after the call. -/
  | ok (stmts : List (List Nat)) (newPos : Nat) : ReadResult
  deriving DecidableEq, Repr

/-- Tail of `MDDataReader.Read`: flush a leftover partial statement and report
the handle position — `beginPos + readSize` after a budget break (explicit
`fd.Seek`), or the file size when the loop drained the file to `io.EOF`. -/
def finishRead (contentLen beginPos : Nat) (header : List Nat) :
    Option LoopOut → ReadResult
  | none => .panicked
  | some o =>
    match (if o.statement.length ≠ 0 then appendSQL header o.stmts o.statement
           else some o.stmts) with
    | none => .panicked
    | some s => .ok s (if o.broke then beginPos + o.readSize else contentLen)

/-- Model of `MDDataReader.Read`. -/
def mdRead (content header : List Nat) (pos minSize : Nat) : ReadResult :=
  if content.length ≤ pos then .eof
  else finishRead content.length pos header
    (readLoop header minSize (splitLines (content.drop pos)) [] [] 0)

/-- The position-relevant state of an `MDDataReader`. -/
structure MD where
  header : List Nat
  pos : Nat
  deriving DecidableEq, Repr

/-- Model of `NewMDDataReader`: detect the header (failing with
`ErrInsertStatementNotFound`, i.e. `none`, when it is empty), then skip
annotation lines at `offset`. -/
def NewMDDataReader (content : List Nat) (offset : Nat) : Option MD :=
  let h := getInsertStatementHeader content
  if h.length = 0 then none
  else some ⟨h, skipAnnot content offset⟩

/-- The state of a `RegionReader`. -/
structure RR where
  content : List Nat
  header : List Nat
  offset : Nat
  size : Nat
  pos : Nat
  deriving DecidableEq, Repr

/-- Model of `NewRegionReader`. -/
def NewRegionReader (content : List Nat) (offset size : Nat) : Option RR :=
  match NewMDDataReader content offset with
  | none => none
  | some md => some ⟨content, md.header, offset, size, md.pos⟩

/-- Model of `RegionReader.Read`: past the region end it returns `io.EOF`
without touching the position; otherwise it forwards
`min maxBlockSize (offset + size - pos)` to the underlying reader and adopts
that reader's reported position (`r.pos = r.fileReader.Tell()`). -/
def rrRead (r : RR) (maxBlockSize : Nat) : RR × ReadResult :=
  if r.offset + r.size ≤ r.pos then (r, .eof)
  else
    let readSize := min maxBlockSize (r.offset + r.size - r.pos)
    match mdRead r.content r.header r.pos readSize with
    | .ok stmts p => ({ r with pos := p }, .ok stmts p)
    | .eof => (r, .eof)
    | .panicked => (r, .panicked)

/-- `RegionReader.Tell`. -/
def rrTell (r : RR) : Nat := r.pos

/-- A sequence of `RegionReader.Read` calls with the given `maxBlockSize`s. -/
def rrReadMany (r : RR) : List Nat → RR
  | [] => r
  | m :: ms => rrReadMany (rrRead r m).1 ms

/-- An `os.File`: `Close` on an already-closed file returns an error
(`os.ErrClosed`) — "Close will return an error if it has already been
called". -/
structure FileHandle where
  closed : Bool
  deriving DecidableEq, Repr

/-- Model of `(*os.File).Close`. -/
def fileClose (f : FileHandle) : Except Unit FileHandle :=
  if f.closed then .error () else .ok ⟨true⟩

/-- Model of `MDDataReader.Close`: if `r.fd != nil` close it, propagating any
error.  The source never sets `r.fd` to `nil`, so the handle value is kept
(now closed) in the reader. -/
def mdClose (fd : Option FileHandle) : Except Unit (Option FileHandle) :=
  match fd with
  | none => .ok none
  | some f =>
    match fileClose f with
    | .error e => .error e
    | .ok f' => .ok (some f')

/-- Model of `RegionReader.Close`: `errors.Trace(r.fileReader.Close())`. -/
def rrClose (fd : Option FileHandle) : Except Unit (Option FileHandle) := mdClose fd

/-- UTF-8 continuation byte. -/
def utf8Cont (b : Nat) : Bool := decide (128 ≤ b ∧ b ≤ 191)

/-- Model of Go's `utf8.Valid`: standard UTF-8 validity (no overlongs, no
surrogates, max U+10FFFF). -/
def utf8Valid : List Nat → Bool
  | [] => true
  | b :: rest =>
    if b ≤ 127 then utf8Valid rest
    else if b < 194 then false
    else if b ≤ 223 then
      match rest with
      | c1 :: r => utf8Cont c1 && utf8Valid r
      | [] => false
    else if b ≤ 239 then
      match rest with
      | c1 :: c2 :: r =>
        (if b = 224 then decide (160 ≤ c1 ∧ c1 ≤ 191)
         else if b = 237 then decide (128 ≤ c1 ∧ c1 ≤ 159)
         else utf8Cont c1) && utf8Cont c2 && utf8Valid r
      | _ => false
    else if b ≤ 244 then
      match rest with
      | c1 :: c2 :: c3 :: r =>
        (if b = 240 then decide (144 ≤ c1 ∧ c1 ≤ 191)
         else if b = 244 then decide (128 ≤ c1 ∧ c1 ≤ 143)
         else utf8Cont c1) && utf8Cont c2 && utf8Cont c3 && utf8Valid r
      | _ => false
    else false

/-- `containsSeq p l`: `p` occurs as a contiguous run inside `l`
(`bytes.Contains`). -/
def containsSeq (p : List Nat) : List Nat → Bool
  | [] => p.isEmpty
  | b :: rest => p.isPrefixOf (b :: rest) || containsSeq p rest

/-- Model of `bytes.ContainsRune(decoded, '�')`: with `utf8.RuneError`
as argument, `IndexRune` reports the first invalid UTF-8 sequence or literal
`U+FFFD` encoding (`EF BF BD`). -/
def containsFFFD (l : List Nat) : Bool :=
  !utf8Valid l || containsSeq [239, 191, 189] l

/-- Errors of `decodeCharacterSet`. -/
inductive DecErr where
  /-- `errInvalidSchemaEncoding`. -/
  | invalidSchemaEncoding : DecErr
  /-- `errors.Trace(err)` from the GB18030 decoder itself. -/
  | decoderError : DecErr
  /-- `errors.Errorf("Unsupported encoding %s", characterSet)`. -/
  | unsupportedEncoding (name : String) : DecErr
  deriving DecidableEq, Repr

/-- Model of `decodeCharacterSet`.  The GB18030 codec lives in the external
`golang.org/x/text` library, so it is taken as a parameter `gbDecode`
(`none` = the decoder returned an error). -/
def decodeCharacterSet (gbDecode : List Nat → Option (List Nat))
    (data : List Nat) (characterSet : String) : Except DecErr (List Nat) :=
  let gb : Except DecErr (List Nat) :=
    match gbDecode data with
    | none => .error .decoderError
    | some decoded =>
      if containsFFFD decoded then .error .invalidSchemaEncoding
      else .ok decoded
  if characterSet = "binary" then .ok data
  else if characterSet = "auto" then
    if utf8Valid data then .ok data else gb
  else if characterSet = "utf8mb4" then
    if utf8Valid data then .ok data else .error .invalidSchemaEncoding
  else if characterSet = "gb18030" then gb
  else .error (.unsupportedEncoding characterSet)

/-- Spec-side helper for C3: a value row with its trailing separator
(`,` or `;`) normalised to `,`. -/
def replaceLast (t : List Nat) : List Nat := t.dropLast ++ [44]

/-- Spec-side helper for C3: the value-row payload of a batch of emitted
statements — each statement with the header removed and its final separator
normalised, concatenated in order. -/
def rowsPayload (header : List Nat) : ReadResult → List Nat
  | .ok stmts _ => (stmts.map (fun s => replaceLast (s.drop header.length))).flatten
  | _ => []

/-- Spec-side helper for C3: the position a `Read` call reported. -/
def resPos : ReadResult → Nat
  | .ok _ p => p
  | _ => 0

/-- Spec-side helper for C7: the lines the header scan actually examines — the
leading run of newline-terminated chunks. -/
def examinedLines (content : List Nat) : List (List Nat) :=
  (splitLines content).takeWhile (fun l => decide (l.getLast? = some 10))

/-- The statement header of the concrete test files. -/
def headerT : List Nat := bytes "INSERT INTO t VALUES"

/-- The four-line file of the spec's concrete scenario (C4). -/
def fileC4 : List Nat := bytes "INSERT INTO t VALUES\n(1),\n(2),\n(3);\n"

/-- A file with a `/* ... */;` annotation line between two value rows (C5). -/
def fileC5 : List Nat := bytes "INSERT INTO t VALUES\n(1),\n/* comment */;\n(2);\n"

/-- The same file with a `/* ... */` comment line (no trailing `;`). -/
def fileC5good : List Nat := bytes "INSERT INTO t VALUES\n(1),\n/* comment */\n(2);\n"

/-- A file starting with two annotation-block lines (C6). -/
def fileC6 : List Nat := bytes "/*A*/;\n/*B*/;\nINSERT INTO t VALUES\n(1);\n"

/-- A file whose only (matching) line is not newline-terminated (C7). -/
def fileC7 : List Nat := bytes "INSERT INTO t VALUES(1);"

/-- A statement is well-formed when it carries the header and ends in `;`. -/
def GoodStmt (header s : List Nat) : Prop := header <+: s ∧ s.getLast? = some 59

/-- Loop invariant of `Read`: the running statement buffer is empty, or is
already-trimmed and starts with the header. -/
def StInv (header st : List Nat) : Prop :=
  st = [] ∨ (trimSpace st = st ∧ header <+: st)

/-- The facts about a discovered header that rule out the panics in
`appendSQL`'s log-and-drop branches. -/
def GoodHeader (h : List Nat) : Prop :=
  h ≠ [] ∧ 10 ≤ h.length ∧ ∀ c, h.head? = some c → goIsSpace c = false

/-- The annotation-free dump file shape of C3: one header line followed by one
value-row line per row. -/
def mkContent (header : List Nat) (ts : List (List Nat)) : List Nat :=
  (header ++ [10]) ++ (ts.map (fun t => t ++ [10])).flatten

/-- A well-formed value row (C3): already trimmed, nonempty, newline-free, not
comment-shaped, and not starting with the header. -/
def RowOK (header t : List Nat) : Prop :=
  trimSpace t = t ∧ t ≠ [] ∧ 10 ∉ t ∧ isCommentLine t = false ∧
    header.isPrefixOf t = false

/-! ### Facts about line splitting -/

theorem splitLinesAux_flatten : ∀ (x acc : List Nat),
    (splitLinesAux x acc).flatten = acc.reverse ++ x
  | [], acc => by cases acc <;> simp [splitLinesAux]
  | b :: rest, acc => by
    by_cases hb : b = 10
    · subst hb
      simp [splitLinesAux, splitLinesAux_flatten rest []]
    · simp [splitLinesAux, hb, splitLinesAux_flatten rest (b :: acc)]

theorem splitLines_flatten (x : List Nat) : (splitLines x).flatten = x := by
  simpa using splitLinesAux_flatten x []

theorem splitLinesAux_chunk : ∀ (m : List Nat), 10 ∉ m → ∀ (rest acc : List Nat),
    splitLinesAux (m ++ 10 :: rest) acc = (acc.reverse ++ (m ++ [10])) :: splitLinesAux rest []
  | [], _, rest, acc => by simp [splitLinesAux]
  | b :: m, h, rest, acc => by
    have hb : b ≠ 10 := fun e => h (e ▸ List.mem_cons_self b m)
    have hm : 10 ∉ m := fun hm => h (List.mem_cons_of_mem _ hm)
    simp [splitLinesAux, hb, splitLinesAux_chunk m hm rest (b :: acc)]

theorem splitLines_cons (m rest : List Nat) (h : 10 ∉ m) :
    splitLines ((m ++ [10]) ++ rest) = (m ++ [10]) :: splitLines rest := by
  have := splitLinesAux_chunk m h rest []
  simpa [splitLines] using this

theorem splitLines_cons_line (l rest : List Nat) (h10 : l.getLast? = some 10)
    (hin : 10 ∉ l.dropLast) : splitLines (l ++ rest) = l :: splitLines rest := by
  obtain ⟨m, rfl⟩ : ∃ m, l = m ++ [10] := List.getLast?_eq_some_iff.1 h10
  exact splitLines_cons m rest (by simpa using hin)

/-! ### Facts about trimming -/

theorem head?_dropWhile_not (p : Nat → Bool) :
    ∀ (l : List Nat) (a : Nat), (l.dropWhile p).head? = some a → p a = false
  | [], a => by simp
  | b :: l, a => by
    by_cases hb : p b
    · rw [List.dropWhile_cons, if_pos hb]
      exact head?_dropWhile_not p l a
    · rw [List.dropWhile_cons, if_neg hb]
      intro h
      cases h
      exact Bool.eq_false_iff.2 hb

theorem getLast?_dropWhile_of_ne_nil (p : Nat → Bool) (l : List Nat)
    (h : l.dropWhile p ≠ []) : (l.dropWhile p).getLast? = l.getLast? := by
  obtain ⟨w, hw⟩ := (List.dropWhile_suffix p (l := l))
  conv_rhs => rw [← hw]
  rw [List.getLast?_append]
  cases hx : (l.dropWhile p).getLast? with
  | none => exact absurd (List.getLast?_eq_none_iff.1 hx) h
  | some a => rfl

theorem trimSpace_getLast?_not (l : List Nat) (a : Nat)
    (h : (trimSpace l).getLast? = some a) : goIsSpace a = false := by
  unfold trimSpace at h
  rw [List.getLast?_reverse] at h
  exact head?_dropWhile_not _ _ _ h

theorem trimSpace_head?_not (l : List Nat) (a : Nat)
    (h : (trimSpace l).head? = some a) : goIsSpace a = false := by
  unfold trimSpace at h
  rw [List.head?_reverse] at h
  have hne : (((l.dropWhile goIsSpace).reverse).dropWhile goIsSpace) ≠ [] := by
    intro e
    rw [e] at h
    exact Option.noConfusion h
  rw [getLast?_dropWhile_of_ne_nil _ _ hne, List.getLast?_reverse] at h
  exact head?_dropWhile_not _ _ _ h

theorem trimSpace_eq_self (l : List Nat)
    (hh : ∀ a, l.head? = some a → goIsSpace a = false)
    (hl : ∀ a, l.getLast? = some a → goIsSpace a = false) : trimSpace l = l := by
  cases l with
  | nil => rfl
  | cons b t =>
    have hb : goIsSpace b = false := hh b rfl
    unfold trimSpace
    rw [List.dropWhile_cons, if_neg (by simp [hb])]
    cases hr : (b :: t).reverse with
    | nil => exact absurd hr (by simp)
    | cons c r =>
      have hc' : (b :: t).getLast? = some c := by
        rw [← List.head?_reverse, hr]; rfl
      have hc := hl c hc'
      rw [List.dropWhile_cons, if_neg (by simp [hc]), ← hr, List.reverse_reverse]

theorem trimSpace_idem (l : List Nat) : trimSpace (trimSpace l) = trimSpace l :=
  trimSpace_eq_self _ (trimSpace_head?_not l) (trimSpace_getLast?_not l)

theorem trimSpace_append (x y : List Nat) (hx : x ≠ []) (hy : y ≠ [])
    (hxh : ∀ a, x.head? = some a → goIsSpace a = false)
    (hyl : ∀ a, y.getLast? = some a → goIsSpace a = false) :
    trimSpace (x ++ y) = x ++ y := by
  apply trimSpace_eq_self
  · intro a ha
    rw [List.head?_append] at ha
    cases hx' : x.head? with
    | none => exact absurd (List.head?_eq_none_iff.1 hx') hx
    | some b =>
      rw [hx'] at ha
      cases ha
      exact hxh _ hx'
  · intro a ha
    rw [List.getLast?_append] at ha
    cases hy' : y.getLast? with
    | none => exact absurd (List.getLast?_eq_none_iff.1 hy') hy
    | some b =>
      rw [hy'] at ha
      cases ha
      exact hyl _ hy'

/-! ### Soundness of emission: every statement `appendSQL` adds starts with the
header and ends in `;` -/

theorem appendSQL_sound (header : List Nat) (stmts : List (List Nat)) (sql0 : List Nat)
    (out : List (List Nat)) (h : appendSQL header stmts sql0 = some out) :
    ∀ s ∈ out, s ∈ stmts ∨ GoodStmt header s := by
  simp only [appendSQL] at h
  split at h
  · cases h; intro s hs; exact Or.inl hs
  · split at h
    · split at h
      · exact absurd h (by simp)
      · cases h; intro s hs; exact Or.inl hs
    · split at h
      · cases h; intro s hs; exact Or.inl hs
      · split at h
        · rename_i hzero hpre hlen hsemi
          cases h
          intro s hs
          rcases List.mem_append.1 hs with hs | hs
          · exact Or.inl hs
          · rcases List.mem_singleton.1 hs with rfl
            have hp : header.isPrefixOf (trimSpace sql0) = true := by
              cases hb : header.isPrefixOf (trimSpace sql0) with
              | true => rfl
              | false => exact absurd hb hpre
            exact Or.inr ⟨List.isPrefixOf_iff_prefix.1 hp, hsemi⟩
        · split at h
          · rename_i hzero hpre hlen hsemi hcomma
            cases h
            intro s hs
            rcases List.mem_append.1 hs with hs | hs
            · exact Or.inl hs
            · rcases List.mem_singleton.1 hs with rfl
              refine Or.inr ⟨?_, List.getLast?_concat _⟩
              have hp : header.isPrefixOf (trimSpace sql0) = true := by
                cases hb : header.isPrefixOf (trimSpace sql0) with
                | true => rfl
                | false => exact absurd hb hpre
              obtain ⟨rest, hrest⟩ := List.isPrefixOf_iff_prefix.1 hp
              have hrne : rest ≠ [] := by
                intro hr
                subst hr
                exact hlen (by rw [← hrest, List.append_nil])
              have hd : (header ++ rest).dropLast = header ++ rest.dropLast := by
                cases rest with
                | nil => exact absurd rfl hrne
                | cons a t => exact List.dropLast_append_cons
              rw [← hrest, hd, List.append_assoc]
              exact ⟨rest.dropLast ++ [59], rfl⟩
          · split at h
            · exact absurd h (by simp)
            · cases h; intro s hs; exact Or.inl hs

theorem readLoop_sound (header : List Nat) (m : Nat) :
    ∀ (chunks stacc : List (List Nat)) (statement : List Nat) (rs : Nat) (o : LoopOut),
      readLoop header m chunks stacc statement rs = some o →
      ∀ s ∈ o.stmts, s ∈ stacc ∨ GoodStmt header s
  | [], stacc, statement, rs, o, h, s, hs => by
    cases h; exact Or.inl hs
  | l :: rest, stacc, statement, rs, o, h, s, hs => by
    simp only [readLoop] at h
    split at h
    · exact readLoop_sound header m rest stacc statement rs o h s hs
    · split at h
      · exact absurd h (by simp)
      · rename_i s1 st1 heq
        have hmem : ∀ x ∈ s1, x ∈ stacc ∨ GoodStmt header x := by
          split at heq
          · cases heq; exact fun x hx => Or.inl hx
          · set stNew := (if statement.length = 0 ∧ header.isPrefixOf (trimSpace l) = false
              then header ++ trimSpace l else statement ++ trimSpace l) with hst
            clear_value stNew
            split at heq
            · split at heq
              · exact absurd heq (by simp)
              · rename_i s2 happ
                cases heq
                exact appendSQL_sound header stacc _ _ happ
            · cases heq; exact fun x hx => Or.inl hx
        split at h
        · cases h; exact hmem s hs
        · rcases readLoop_sound header m rest s1 st1 (rs + l.length) o h s hs with h' | h'
          · exact hmem s h'
          · exact Or.inr h'

/-- C1: every call to `MDDataReader.Read` that returns a batch of statements
returns only statements that begin with the discovered statement header and
end with the byte `;` (after the trailing-comma fix-up). -/
theorem claim_C1 (content header : List Nat) (pos minSize : Nat)
    (stmts : List (List Nat)) (p : Nat)
    (h : mdRead content header pos minSize = .ok stmts p) :
    ∀ s ∈ stmts, GoodStmt header s := by
  unfold mdRead at h
  split at h
  · exact absurd h (by simp)
  · cases hrl : readLoop header minSize (splitLines (content.drop pos)) [] [] 0 with
    | none => rw [hrl] at h; exact absurd h (by simp [finishRead])
    | some o =>
      rw [hrl] at h
      simp only [finishRead] at h
      intro s hs
      have base : ∀ x ∈ o.stmts, GoodStmt header x := by
        intro x hx
        rcases readLoop_sound header minSize _ [] [] 0 o hrl x hx with h' | h'
        · exact absurd h' (List.not_mem_nil x)
        · exact h'
      split at h
      · exact absurd h (by simp)
      · rename_i s2 heq2
        cases h
        split at heq2
        · rcases appendSQL_sound header o.stmts o.statement _ heq2 s hs with h' | h'
          · exact base s h'
          · exact h'
        · cases heq2
          exact base s hs

/-- Witness for C1 at a concrete call. -/
theorem claim_C1_witness :
    GoodStmt (bytes "INSERT INTO t VALUES") (bytes "INSERT INTO t VALUES(1),(2),(3);") :=
  claim_C1 (bytes "INSERT INTO t VALUES\n(1),\n(2),\n(3);\n") (bytes "INSERT INTO t VALUES")
    0 100 [bytes "INSERT INTO t VALUES(1),(2),(3);"] 36 (by decide)
    (bytes "INSERT INTO t VALUES(1),(2),(3);") (by simp)

/-! ### Position bounds: a read never reports a position past the file size -/

theorem readLoop_readSize_le (header : List Nat) (m : Nat) :
    ∀ (chunks stacc : List (List Nat)) (statement : List Nat) (rs : Nat) (o : LoopOut),
      readLoop header m chunks stacc statement rs = some o →
      o.readSize ≤ rs + (chunks.map List.length).sum
  | [], stacc, statement, rs, o, h => by
    cases h; simp
  | l :: rest, stacc, statement, rs, o, h => by
    simp only [readLoop] at h
    split at h
    · have := readLoop_readSize_le header m rest stacc statement rs o h
      simp only [List.map_cons, List.sum_cons]
      omega
    · split at h
      · exact absurd h (by simp)
      · rename_i s1 st1 heq
        split at h
        · cases h
          simp only [List.map_cons, List.sum_cons]
          omega
        · have := readLoop_readSize_le header m rest s1 st1 (rs + l.length) o h
          simp only [List.map_cons, List.sum_cons]
          omega

theorem mdRead_pos_le (content header : List Nat) (pos minSize : Nat)
    (stmts : List (List Nat)) (p : Nat)
    (h : mdRead content header pos minSize = .ok stmts p) : p ≤ content.length := by
  unfold mdRead at h
  split at h
  · exact absurd h (by simp)
  · rename_i hpos
    cases hrl : readLoop header minSize (splitLines (content.drop pos)) [] [] 0 with
    | none => rw [hrl] at h; exact absurd h (by simp [finishRead])
    | some o =>
      rw [hrl] at h
      simp only [finishRead] at h
      split at h
      · exact absurd h (by simp)
      · rename_i s2 heq2
        cases h
        have hsum : ((splitLines (content.drop pos)).map List.length).sum =
            content.length - pos := by
          rw [← List.length_flatten, splitLines_flatten, List.length_drop]
        have hrs := readLoop_readSize_le header minSize _ [] [] 0 o hrl
        rw [hsum] at hrs
        split
        · omega
        · exact Nat.le_refl _

theorem skipAnnotGo_le (contentLen offset : Nat) (hoff : offset ≤ contentLen) :
    ∀ (chunks : List (List Nat)) (skip : Nat),
      skipAnnotGo contentLen offset chunks skip ≤ contentLen
  | [], skip => by simp [skipAnnotGo, hoff]
  | l :: rest, skip => by
    simp only [skipAnnotGo]
    split
    · split
      · exact skipAnnotGo_le contentLen offset hoff rest (skip + l.length)
      · exact Nat.min_le_right _ _
    · simp [hoff]

theorem skipAnnot_le (content : List Nat) (offset : Nat) (h : offset ≤ content.length) :
    skipAnnot content offset ≤ content.length :=
  skipAnnotGo_le _ _ h _ _

theorem rrRead_preserves (r : RR) (m : Nat) :
    (rrRead r m).1.content = r.content ∧ (rrRead r m).1.header = r.header ∧
    (r.pos ≤ r.content.length → (rrRead r m).1.pos ≤ r.content.length) := by
  simp only [rrRead]
  split
  · exact ⟨rfl, rfl, fun h => h⟩
  · cases hmd : mdRead r.content r.header r.pos (min m (r.offset + r.size - r.pos)) with
    | ok s p =>
      refine ⟨rfl, rfl, fun _ => ?_⟩
      exact mdRead_pos_le _ _ _ _ _ _ hmd
    | eof => exact ⟨rfl, rfl, fun h => h⟩
    | panicked => exact ⟨rfl, rfl, fun h => h⟩

theorem rrReadMany_pos_le : ∀ (calls : List Nat) (r : RR), r.pos ≤ r.content.length →
    (rrReadMany r calls).content = r.content ∧
    (rrReadMany r calls).pos ≤ r.content.length
  | [], r, h => ⟨rfl, h⟩
  | m :: ms, r, h => by
    simp only [rrReadMany]
    obtain ⟨hc, hh, hp⟩ := rrRead_preserves r m
    have := rrReadMany_pos_le ms (rrRead r m).1 (by rw [hc]; exact hp h)
    rw [hc] at this
    exact this

/-- C2 counterexample: for the 26-byte file `INSERT INTO t VALUES\n(1);\n` and
a region `[0, 1)`, a single `Read(100)` leaves `Tell() = 21 > offset + size = 1`:
the reader consumed the whole 21-byte header line to finish the partial line
that straddles the region boundary. -/
theorem claim_C2_counterexample :
    NewRegionReader (bytes "INSERT INTO t VALUES\n(1);\n") 0 1 =
      some ⟨bytes "INSERT INTO t VALUES\n(1);\n", bytes "INSERT INTO t VALUES", 0, 1, 0⟩ ∧
    rrTell (rrReadMany
      ⟨bytes "INSERT INTO t VALUES\n(1);\n", bytes "INSERT INTO t VALUES", 0, 1, 0⟩ [100]) = 21 ∧
    0 + 1 < 21 := by
  refine ⟨by decide, by decide, by decide⟩

/-- C2 (amended): `Tell` can exceed `offset + size` when a consumed line
straddles the region boundary; the invariant that does hold is that after any
sequence of `Read` calls on a `RegionReader` constructed at `offset ≤ fileSize`,
`Tell()` never exceeds the file size (the file's own size is the hard clamp). -/
theorem claim_C2_amended (content : List Nat) (offset size : Nat) (r0 : RR)
    (hc : NewRegionReader content offset size = some r0)
    (hoff : offset ≤ content.length) (calls : List Nat) :
    rrTell (rrReadMany r0 calls) ≤ content.length := by
  unfold NewRegionReader at hc
  cases hmd : NewMDDataReader content offset with
  | none => rw [hmd] at hc; exact absurd hc (by simp)
  | some md =>
    rw [hmd] at hc
    cases hc
    have hpos : md.pos ≤ content.length := by
      simp only [NewMDDataReader] at hmd
      split at hmd
      · exact absurd hmd (by simp)
      · cases hmd
        exact skipAnnot_le content offset hoff
    exact (rrReadMany_pos_le calls _ hpos).2

/-- Witness for the amended C2 at a concrete reader and call sequence. -/
theorem claim_C2_amended_witness :
    rrTell (rrReadMany
      ⟨bytes "INSERT INTO t VALUES\n(1);\n", bytes "INSERT INTO t VALUES", 0, 1, 0⟩ [100, 100])
      ≤ (bytes "INSERT INTO t VALUES\n(1);\n").length :=
  claim_C2_amended (bytes "INSERT INTO t VALUES\n(1);\n") 0 1
    ⟨bytes "INSERT INTO t VALUES\n(1);\n", bytes "INSERT INTO t VALUES", 0, 1, 0⟩
    (by decide) (by decide) [100, 100]

/-! ### C9: Close is not idempotent in the success sense -/

/-- C9 counterexample: `MDDataReader.Close` never sets `r.fd` to `nil`, so a
second `Close` after a successful one calls `(*os.File).Close` on an
already-closed handle and reports that error, not success. -/
theorem claim_C9_counterexample :
    mdClose (some ⟨false⟩) = .ok (some ⟨true⟩) ∧
    mdClose (some ⟨true⟩) = .error () :=
  ⟨rfl, rfl⟩

/-- C9 (amended): `Close` between `Read` calls releases the file handle, and a
second `Close` is safe (no panic, the reader state is unchanged) — but it
reports an already-closed error rather than success, because `r.fd` is never
reset to `nil`.  `RegionReader.Close` merely forwards to the inner reader. -/
theorem claim_C9_amended :
    (∀ f : FileHandle, f.closed = false → mdClose (some f) = .ok (some ⟨true⟩)) ∧
    (∀ f : FileHandle, f.closed = true → mdClose (some f) = .error ()) ∧
    (∀ fd, rrClose fd = mdClose fd) := by
  refine ⟨?_, ?_, fun _ => rfl⟩
  · rintro ⟨c⟩ h
    cases h
    rfl
  · rintro ⟨c⟩ h
    cases h
    rfl

/-- Witness for the amended C9. -/
theorem claim_C9_amended_witness :
    mdClose (some ⟨false⟩) = .ok (some ⟨true⟩) ∧ rrClose none = mdClose none :=
  ⟨claim_C9_amended.1 ⟨false⟩ rfl, claim_C9_amended.2.2 none⟩

/-! ### C8: the encoding normalizer -/

/-- C8: `decodeCharacterSet` on `"gb18030"` fails exactly when the GB18030
decoder itself fails or the decoded output contains the replacement character
U+FFFD; in the replacement-character case the error is the
`InvalidEncoding` (`errInvalidSchemaEncoding`) error, and otherwise the
decoded bytes are returned.  For `"auto"`, when the input is not valid UTF-8
the call behaves exactly like `"gb18030"`. -/
theorem decodeCharacterSet_gb18030 (gbDecode : List Nat → Option (List Nat))
    (data : List Nat) :
    decodeCharacterSet gbDecode data "gb18030" =
      match gbDecode data with
      | none => .error .decoderError
      | some decoded =>
        if containsFFFD decoded then .error .invalidSchemaEncoding else .ok decoded := by
  simp [decodeCharacterSet]

theorem decodeCharacterSet_auto (gbDecode : List Nat → Option (List Nat))
    (data : List Nat) :
    decodeCharacterSet gbDecode data "auto" =
      if utf8Valid data then .ok data
      else
        match gbDecode data with
        | none => .error .decoderError
        | some decoded =>
          if containsFFFD decoded then .error .invalidSchemaEncoding else .ok decoded := by
  simp [decodeCharacterSet]

theorem claim_C8 (gbDecode : List Nat → Option (List Nat)) (data : List Nat) :
    ((∃ e, decodeCharacterSet gbDecode data "gb18030" = .error e) ↔
      (gbDecode data = none ∨ ∃ out, gbDecode data = some out ∧ containsFFFD out = true)) ∧
    (∀ out, gbDecode data = some out → containsFFFD out = true →
      decodeCharacterSet gbDecode data "gb18030" = .error .invalidSchemaEncoding) ∧
    (∀ out, gbDecode data = some out → containsFFFD out = false →
      decodeCharacterSet gbDecode data "gb18030" = .ok out) ∧
    (utf8Valid data = false →
      decodeCharacterSet gbDecode data "auto" = decodeCharacterSet gbDecode data "gb18030") := by
  have hgb := decodeCharacterSet_gb18030 gbDecode data
  refine ⟨⟨?_, ?_⟩, ?_, ?_, ?_⟩
  · intro ⟨e, he⟩
    rw [hgb] at he
    cases hg : gbDecode data with
    | none => exact Or.inl rfl
    | some out =>
      rw [hg] at he
      refine Or.inr ⟨out, rfl, ?_⟩
      cases hf : containsFFFD out with
      | true => rfl
      | false => simp [hf] at he
  · intro h
    rw [hgb]
    rcases h with hg | ⟨out, hg, hf⟩
    · rw [hg]; exact ⟨.decoderError, rfl⟩
    · rw [hg]; exact ⟨.invalidSchemaEncoding, by simp [hf]⟩
  · intro out hg hf
    rw [hgb, hg]
    simp [hf]
  · intro out hg hf
    rw [hgb, hg]
    simp [hf]
  · intro hv
    rw [decodeCharacterSet_auto, hgb, hv]
    simp

/-- Witness for C8: with a decoder that produces a replacement character on a
non-UTF-8 input, `"auto"` reports the invalid-encoding error. -/
theorem claim_C8_witness :
    decodeCharacterSet (fun _ => some [239, 191, 189]) [255] "auto" =
      .error DecErr.invalidSchemaEncoding := by
  have h := claim_C8 (fun _ => some [239, 191, 189]) [255]
  rw [h.2.2.2 (by decide)]
  exact h.2.1 [239, 191, 189] rfl (by decide)

/-! ### C4: the concrete two-read scenario -/

/-- C4 counterexample: on the exact four-line file, the first
`Read(minSize = 10)` at offset 0 returns no statements at all — the 21-byte
header line alone reaches the 10-byte budget and the header-only statement is
discarded as empty — rather than `INSERT INTO t VALUES(1),(2);`. -/
theorem claim_C4_counterexample :
    NewMDDataReader fileC4 0 = some ⟨headerT, 0⟩ ∧
    mdRead fileC4 headerT 0 10 = .ok [] 21 :=
  ⟨by decide, by decide⟩

/-- C4 (amended): the first `Read(10)` consumes only the header line and emits
nothing (position 21); it is the second `Read(10)` that returns exactly
`INSERT INTO t VALUES(1),(2);` (comma fix-up, position 31) and the third that
returns exactly `INSERT INTO t VALUES(3);` (position 36 = EOF). -/
theorem claim_C4_amended :
    NewMDDataReader fileC4 0 = some ⟨headerT, 0⟩ ∧
    mdRead fileC4 headerT 0 10 = .ok [] 21 ∧
    mdRead fileC4 headerT 21 10 = .ok [bytes "INSERT INTO t VALUES(1),(2);"] 31 ∧
    mdRead fileC4 headerT 31 10 = .ok [bytes "INSERT INTO t VALUES(3);"] 36 ∧
    mdRead fileC4 headerT 36 10 = .eof :=
  ⟨by decide, by decide, by decide, by decide, by decide⟩

/-! ### C5: inline comment skipping -/

/-- C5 counterexample: a line of the exact shape `/* ... */;` is NOT skipped by
`MDDataReader.Read` — the inline filter requires the suffix `*/` (without the
semicolon) — so its bytes are appended to the running statement, which then
ends in `;` and is emitted containing the whole comment line. -/
theorem claim_C5_counterexample :
    NewMDDataReader fileC5 0 = some ⟨headerT, 0⟩ ∧
    mdRead fileC5 headerT 0 1000 =
      .ok [bytes "INSERT INTO t VALUES(1),/* comment */;",
           bytes "INSERT INTO t VALUES(2);"] 46 ∧
    containsSeq (bytes "/* comment */;")
      (bytes "INSERT INTO t VALUES(1),/* comment */;") = true :=
  ⟨by decide, by decide, by decide⟩

/-- C5 (amended): the lines `Read` skips entirely are those whose trimmed form
starts with `/*` and ends with `*/` (no trailing `;`): such a line leaves the
statement accumulator, the emitted batch and the byte budget untouched.  A
concrete read over a file with a `/* comment */` line emits statements
containing none of that line's bytes. -/
theorem claim_C5_amended :
    (∀ (header : List Nat) (minSize : Nat) (l : List Nat)
       (rest stacc : List (List Nat)) (statement : List Nat) (rs : Nat),
        trimSpace l ≠ [] → isCommentLine (trimSpace l) = true →
        readLoop header minSize (l :: rest) stacc statement rs =
          readLoop header minSize rest stacc statement rs) ∧
    mdRead fileC5good headerT 0 1000 = .ok [bytes "INSERT INTO t VALUES(1),(2);"] 45 := by
  refine ⟨?_, by decide⟩
  intro header minSize l rest stacc statement rs hne hcom
  simp only [readLoop]
  rw [if_pos ⟨fun h => hne (List.length_eq_zero.1 h), hcom⟩]

/-- Witness for the amended C5 at a concrete comment line. -/
theorem claim_C5_amended_witness :
    readLoop headerT 1000 [bytes "/* x */\n", bytes "(2);\n"] [] (bytes "(1),") 0 =
      readLoop headerT 1000 [bytes "(2);\n"] [] (bytes "(1),") 0 :=
  claim_C5_amended.1 headerT 1000 (bytes "/* x */\n") [bytes "(2);\n"] [] (bytes "(1),") 0
    (by decide) (by decide)

/-! ### C6: annotation skipping at construction -/

theorem skipAnnotGo_spec (contentLen offset : Nat) :
    ∀ (annos : List (List Nat)) (l : List Nat) (rest : List (List Nat)) (skip : Nat),
      (∀ a ∈ annos, a.getLast? = some 10 ∧ isAnnotLine (trimSpace a) = true) →
      l.getLast? = some 10 → isAnnotLine (trimSpace l) = false →
      skipAnnotGo contentLen offset (annos ++ l :: rest) skip =
        min (offset + (skip + (annos.map List.length).sum)) contentLen
  | [], l, rest, skip, _, hl10, hlann => by
    simp [skipAnnotGo, hl10, hlann]
  | a :: annos, l, rest, skip, hannos, hl10, hlann => by
    obtain ⟨ha10, haann⟩ := hannos a (List.mem_cons_self a annos)
    have ih := skipAnnotGo_spec contentLen offset annos l rest (skip + a.length)
      (fun x hx => hannos x (List.mem_cons_of_mem a hx)) hl10 hlann
    simp only [List.cons_append, skipAnnotGo, ha10, haann, if_pos rfl, if_true,
      List.append_eq]
    rw [ih]
    have : skip + a.length + (annos.map List.length).sum =
        skip + (a.length + (annos.map List.length).sum) := by omega
    rw [this]
    simp

/-- C6: when a reader is constructed at an offset whose following lines are a
run of newline-terminated annotation-block lines followed by a
newline-terminated non-annotation line, its position lands on the first byte
of that non-annotation line: `min (offset + skipCounter) fileSize` where
`skipCounter` is the total length of the skipped annotation lines. -/
theorem claim_C6 (content : List Nat) (offset : Nat) (md : MD)
    (annos : List (List Nat)) (l : List Nat) (rest : List (List Nat))
    (hc : NewMDDataReader content offset = some md)
    (hsplit : splitLines (content.drop offset) = annos ++ l :: rest)
    (hannos : ∀ a ∈ annos, a.getLast? = some 10 ∧ isAnnotLine (trimSpace a) = true)
    (hl10 : l.getLast? = some 10) (hlann : isAnnotLine (trimSpace l) = false) :
    md.pos = min (offset + (annos.map List.length).sum) content.length := by
  have hpos : md.pos = skipAnnot content offset := by
    simp only [NewMDDataReader] at hc
    split at hc
    · exact absurd hc (by simp)
    · cases hc; rfl
  rw [hpos]
  unfold skipAnnot
  rw [hsplit, skipAnnotGo_spec content.length offset annos l rest 0 hannos hl10 hlann]
  simp

/-- Witness for C6: the spec's concrete file `/*A*/;\n/*B*/;\nINSERT ...`,
constructed at offset 0, is positioned at byte 14, the first byte of the
INSERT line. -/
theorem claim_C6_witness :
    MD.pos ⟨headerT, 14⟩ =
      min (0 + ([bytes "/*A*/;\n", bytes "/*B*/;\n"].map List.length).sum) fileC6.length :=
  claim_C6 fileC6 0 ⟨headerT, 14⟩ [bytes "/*A*/;\n", bytes "/*B*/;\n"]
    (bytes "INSERT INTO t VALUES\n") [bytes "(1);\n"]
    (by decide) (by decide) (by decide) (by decide) (by decide)

/-! ### Facts about the header regex match -/

theorem findInsMatch_facts (l h : List Nat) (hm : findInsMatch l = some h) :
    19 ≤ h.length ∧ ∃ c, h.head? = some c ∧ (c = 73 ∨ c = 105) := by
  unfold findInsMatch at hm
  obtain ⟨i, hi, hmi⟩ := List.exists_of_findSome?_eq_some hm
  unfold insMatchAt at hmi
  split at hmi
  · rename_i hpre
    cases hg : gMatchEnd l i with
    | none => rw [hg] at hmi; exact absurd hmi (by simp)
    | some j =>
      rw [hg] at hmi
      cases hmi
      unfold gMatchEnd at hg
      have hjmem := List.mem_of_getLast?_eq_some hg
      obtain ⟨hjr, hok⟩ := List.mem_filter.1 hjmem
      simp only [okEnd, Bool.and_eq_true, decide_eq_true_eq] at hok
      obtain ⟨⟨⟨h19, hjlen⟩, _⟩, _⟩ := hok
      have hlen12 : ((l.drop i).take 12).length = 12 := by
        have h1 := congrArg List.length hpre
        rw [List.length_map] at h1
        rw [h1]
        decide
      obtain ⟨c, cs, hcc⟩ : ∃ c cs, l.drop i = c :: cs := by
        cases hd : l.drop i with
        | nil => rw [hd] at hlen12; simp at hlen12
        | cons c cs => exact ⟨c, cs, rfl⟩
      have hc105 : toLowerByte c = 105 := by
        rw [hcc] at hpre
        have hb : bytes "insert into " = 105 :: bytes "nsert into " := by decide
        rw [hb] at hpre
        simp only [List.take_succ_cons, List.map_cons, List.cons.injEq] at hpre
        exact hpre.1
      constructor
      · rw [List.length_take, List.length_drop]
        have : (l.drop i).length = l.length - i := List.length_drop i l
        rw [hcc] at this
        simp only [List.length_cons] at this
        omega
      · refine ⟨c, ?_, ?_⟩
        · rw [hcc]
          cases hji : j - i with
          | zero => omega
          | succ k => simp [List.take_succ_cons]
        · unfold toLowerByte at hc105
          split at hc105 <;> omega
  · exact absurd hmi (by simp)

theorem getHeaderGo_eq_nil_iff : ∀ ls : List (List Nat),
    (getHeaderGo ls = [] ↔
      ∀ l ∈ ls.takeWhile (fun l => decide (l.getLast? = some 10)), findInsMatch l = none)
  | [] => by simp [getHeaderGo]
  | l :: rest => by
    by_cases h10 : l.getLast? = some 10
    · cases hm : findInsMatch l with
      | some h =>
        have hne : h ≠ [] := by
          intro he
          have := (findInsMatch_facts l h hm).1
          rw [he] at this
          simp at this
        simp only [getHeaderGo, if_pos h10, hm]
        constructor
        · intro he; exact absurd he hne
        · intro hall
          have := hall l (by simp [h10])
          rw [hm] at this
          exact absurd this (by simp)
      | none =>
        simp only [getHeaderGo, if_pos h10, hm]
        rw [getHeaderGo_eq_nil_iff rest]
        constructor
        · intro hall x hx
          rw [List.takeWhile_cons, if_pos (by simp [h10])] at hx
          rcases List.mem_cons.1 hx with rfl | hx
          · exact hm
          · exact hall x hx
        · intro hall x hx
          apply hall x
          rw [List.takeWhile_cons, if_pos (by simp [h10])]
          exact List.mem_cons_of_mem _ hx
    · simp only [getHeaderGo, if_neg h10]
      rw [List.takeWhile_cons, if_neg (by simp [h10])]
      simp

theorem getHeaderGo_success : ∀ (ls : List (List Nat)) (h : List Nat),
    getHeaderGo ls = h → h ≠ [] →
    ∃ pre l post, ls.takeWhile (fun l => decide (l.getLast? = some 10)) = pre ++ l :: post ∧
      (∀ x ∈ pre, findInsMatch x = none) ∧ findInsMatch l = some h
  | [], h, he, hne => absurd he.symm hne
  | l :: rest, h, he, hne => by
    by_cases h10 : l.getLast? = some 10
    · cases hm : findInsMatch l with
      | some h' =>
        rw [getHeaderGo, if_pos h10, hm] at he
        cases he
        exact ⟨[], l, rest.takeWhile _, by rw [List.takeWhile_cons, if_pos (by simp [h10])]; rfl,
          by simp, hm⟩
      | none =>
        rw [getHeaderGo, if_pos h10, hm] at he
        obtain ⟨pre, l', post, hsp, hpre, hl'⟩ := getHeaderGo_success rest h he hne
        refine ⟨l :: pre, l', post, ?_, ?_, hl'⟩
        · rw [List.takeWhile_cons, if_pos (by simp [h10]), hsp]
          rfl
        · intro x hx
          rcases List.mem_cons.1 hx with rfl | hx
          · exact hm
          · exact hpre x hx
    · rw [getHeaderGo, if_neg h10] at he
      exact absurd he.symm hne

/-! ### C7: header detection -/

/-- C7 counterexample: for a file whose single line matches the pattern but is
not newline-terminated, construction still fails with `HeaderNotFound`: the
scan breaks on `io.EOF` before the regex ever sees the final, unterminated
line. -/
theorem claim_C7_counterexample :
    NewMDDataReader fileC7 0 = none ∧
    splitLines fileC7 = [fileC7] ∧
    findInsMatch fileC7 = some headerT :=
  ⟨by decide, by decide, by decide⟩

/-- C7 (amended): construction fails with `HeaderNotFound` exactly when no
newline-terminated line matches `(?i)INSERT INTO .* VALUES` (content after the
last newline is never examined); on success the recorded header is the exact
matched substring of the first matching newline-terminated line. -/
theorem claim_C7_amended (content : List Nat) (offset : Nat) :
    (NewMDDataReader content offset = none ↔
      ∀ l ∈ examinedLines content, findInsMatch l = none) ∧
    (∀ md, NewMDDataReader content offset = some md →
      ∃ pre l post, examinedLines content = pre ++ l :: post ∧
        (∀ x ∈ pre, findInsMatch x = none) ∧ findInsMatch l = some md.header) := by
  have hiff := getHeaderGo_eq_nil_iff (splitLines content)
  constructor
  · constructor
    · intro h
      simp only [NewMDDataReader] at h
      split at h
      · rename_i hz
        exact hiff.1 (List.length_eq_zero.1 hz)
      · exact absurd h (by simp)
    · intro h
      simp only [NewMDDataReader]
      rw [if_pos (by rw [List.length_eq_zero]; exact hiff.2 h)]
  · intro md h
    simp only [NewMDDataReader] at h
    split at h
    · exact absurd h (by simp)
    · rename_i hz
      cases h
      exact getHeaderGo_success (splitLines content) _ rfl
        (fun he => hz (by
          have he' : getInsertStatementHeader content = [] := he
          simp [he']))

/-- Witness for the amended C7: a file with no INSERT header fails
construction. -/
theorem claim_C7_amended_witness :
    NewMDDataReader (bytes "no insert here\n") 0 = none :=
  (claim_C7_amended (bytes "no insert here\n") 0).1.mpr (by decide)

/-! ### C10: the log-and-drop branches of appendSQL never panic -/

theorem prefix_head?_eq (h s : List Nat) (hp : h <+: s) (hne : h ≠ []) :
    s.head? = h.head? := by
  obtain ⟨r, rfl⟩ := hp
  cases h with
  | nil => exact absurd rfl hne
  | cons a t => rfl

theorem appendSQL_no_panic (header : List Nat) (hgh : GoodHeader header)
    (stmts : List (List Nat)) (st : List Nat) (hinv : StInv header st) :
    appendSQL header stmts st ≠ none := by
  obtain ⟨hne, h10, hhead⟩ := hgh
  rcases hinv with rfl | ⟨htrim, hpre⟩
  · simp [appendSQL, trimSpace]
  · intro heq
    have hpb : header.isPrefixOf st = true := List.isPrefixOf_iff_prefix.2 hpre
    have hlen : header.length ≤ st.length := hpre.length_le
    simp only [appendSQL, htrim] at heq
    split at heq
    · exact absurd heq (by simp)
    · split at heq
      · rename_i hfalse
        rw [hpb] at hfalse
        exact absurd hfalse (by simp)
      · split at heq
        · exact absurd heq (by simp)
        · split at heq
          · exact absurd heq (by simp)
          · split at heq
            · exact absurd heq (by simp)
            · split at heq
              · rename_i hlt
                omega
              · exact absurd heq (by simp)

theorem StInv_step (header st t : List Nat) (hgh : GoodHeader header)
    (hinv : StInv header st) (ht : trimSpace t = t) (htne : t ≠ []) :
    StInv header (if st.length = 0 ∧ header.isPrefixOf t = false
      then header ++ t else st ++ t) := by
  have tlast : ∀ a, t.getLast? = some a → goIsSpace a = false := by
    intro a ha
    rw [← ht] at ha
    exact trimSpace_getLast?_not t a ha
  obtain ⟨hne, h10, hhead⟩ := hgh
  by_cases hc : st.length = 0 ∧ header.isPrefixOf t = false
  · rw [if_pos hc]
    exact Or.inr ⟨trimSpace_append header t hne htne hhead tlast,
      List.prefix_append header t⟩
  · rw [if_neg hc]
    rcases hinv with rfl | ⟨htrim, hpre⟩
    · have hpt : header.isPrefixOf t = true := by
        rcases hb : header.isPrefixOf t with _ | _
        · exact absurd ⟨rfl, hb⟩ hc
        · rfl
      refine Or.inr ⟨by simpa using ht, ?_⟩
      simpa using List.isPrefixOf_iff_prefix.1 hpt
    · have hsne : st ≠ [] := by
        intro he
        rw [he] at hpre
        have := hpre.length_le
        simp only [List.length_nil] at this
        omega
      have hshead : ∀ a, st.head? = some a → goIsSpace a = false := by
        intro a ha
        rw [prefix_head?_eq header st hpre hne] at ha
        exact hhead a ha
      exact Or.inr ⟨trimSpace_append st t hsne htne hshead tlast,
        hpre.trans (List.prefix_append st t)⟩

theorem readLoop_cons_eq (header : List Nat) (m : Nat) (l : List Nat)
    (rest stacc : List (List Nat)) (statement : List Nat) (rs : Nat) :
    readLoop header m (l :: rest) stacc statement rs =
      if (trimSpace l).length ≠ 0 ∧ isCommentLine (trimSpace l) = true then
        readLoop header m rest stacc statement rs
      else if (trimSpace l).length = 0 then
        (if m ≤ rs + l.length then some ⟨stacc, statement, rs + l.length, true⟩
         else readLoop header m rest stacc statement (rs + l.length))
      else if (if statement.length = 0 ∧ header.isPrefixOf (trimSpace l) = false
               then header ++ trimSpace l
               else statement ++ trimSpace l).getLast? = some 59 then
        match appendSQL header stacc
            (if statement.length = 0 ∧ header.isPrefixOf (trimSpace l) = false
             then header ++ trimSpace l else statement ++ trimSpace l) with
        | none => none
        | some s =>
          if m ≤ rs + l.length then some ⟨s, [], rs + l.length, true⟩
          else readLoop header m rest s [] (rs + l.length)
      else
        (if m ≤ rs + l.length then
          some ⟨stacc,
            (if statement.length = 0 ∧ header.isPrefixOf (trimSpace l) = false
             then header ++ trimSpace l else statement ++ trimSpace l),
            rs + l.length, true⟩
         else readLoop header m rest stacc
            (if statement.length = 0 ∧ header.isPrefixOf (trimSpace l) = false
             then header ++ trimSpace l else statement ++ trimSpace l)
            (rs + l.length)) := by
  simp only [readLoop]
  split
  · rfl
  · by_cases ht0 : (trimSpace l).length = 0
    · simp only [if_pos ht0]
    · simp only [if_neg ht0]
      by_cases hsemi : (if statement.length = 0 ∧ header.isPrefixOf (trimSpace l) = false
          then header ++ trimSpace l else statement ++ trimSpace l).getLast? = some 59
      · simp only [if_pos hsemi]
        cases happ : appendSQL header stacc
            (if statement.length = 0 ∧ header.isPrefixOf (trimSpace l) = false
             then header ++ trimSpace l else statement ++ trimSpace l) with
        | none => rfl
        | some s => rfl
      · simp only [if_neg hsemi]

theorem readLoop_no_panic (header : List Nat) (m : Nat) (hgh : GoodHeader header) :
    ∀ (chunks stacc : List (List Nat)) (statement : List Nat) (rs : Nat),
      StInv header statement →
      ∃ o, readLoop header m chunks stacc statement rs = some o ∧
        StInv header o.statement
  | [], stacc, statement, rs, hinv => ⟨⟨stacc, statement, rs, false⟩, rfl, hinv⟩
  | l :: rest, stacc, statement, rs, hinv => by
    rw [readLoop_cons_eq]
    by_cases hcom : (trimSpace l).length ≠ 0 ∧ isCommentLine (trimSpace l) = true
    · rw [if_pos hcom]
      exact readLoop_no_panic header m hgh rest stacc statement rs hinv
    · rw [if_neg hcom]
      by_cases ht0 : (trimSpace l).length = 0
      · rw [if_pos ht0]
        by_cases hb : m ≤ rs + l.length
        · rw [if_pos hb]
          exact ⟨⟨stacc, statement, rs + l.length, true⟩, rfl, hinv⟩
        · rw [if_neg hb]
          exact readLoop_no_panic header m hgh rest stacc statement (rs + l.length) hinv
      · rw [if_neg ht0]
        have htne : trimSpace l ≠ [] := fun he => ht0 (by simp [he])
        have hinv1 := StInv_step header statement (trimSpace l) hgh hinv (trimSpace_idem l) htne
        set st1 := if statement.length = 0 ∧ header.isPrefixOf (trimSpace l) = false
          then header ++ trimSpace l else statement ++ trimSpace l with hst1
        by_cases hsemi : st1.getLast? = some 59
        · rw [if_pos hsemi]
          cases happ : appendSQL header stacc st1 with
          | none => exact absurd happ (appendSQL_no_panic header hgh stacc st1 hinv1)
          | some s2 =>
            by_cases hb : m ≤ rs + l.length
            · exact ⟨⟨s2, [], rs + l.length, true⟩, if_pos hb, Or.inl rfl⟩
            · obtain ⟨o, ho, hi⟩ :=
                readLoop_no_panic header m hgh rest s2 [] (rs + l.length) (Or.inl rfl)
              exact ⟨o, (if_neg hb).trans ho, hi⟩
        · rw [if_neg hsemi]
          by_cases hb : m ≤ rs + l.length
          · rw [if_pos hb]
            exact ⟨⟨stacc, st1, rs + l.length, true⟩, rfl, hinv1⟩
          · rw [if_neg hb]
            exact readLoop_no_panic header m hgh rest stacc st1 (rs + l.length) hinv1

theorem NewMDDataReader_header_facts (content : List Nat) (offset : Nat) (md : MD)
    (hc : NewMDDataReader content offset = some md) :
    19 ≤ md.header.length ∧ ∃ c, md.header.head? = some c ∧ (c = 73 ∨ c = 105) := by
  simp only [NewMDDataReader] at hc
  split at hc
  · exact absurd hc (by simp)
  · rename_i hz
    cases hc
    obtain ⟨pre, l, post, _, _, hl⟩ := getHeaderGo_success (splitLines content) _ rfl
      (fun he => hz (by
        have he' : getInsertStatementHeader content = [] := he
        simp [he']))
    exact findInsMatch_facts l _ hl

/-- C10: for any successfully constructed reader, `MDDataReader.Read` never
reaches a panicking slice in `appendSQL`'s two log-and-drop branches: the
prefix-mismatch branch is unreachable (every candidate statement starts with
the header), and in the suffix-mismatch branch the statement is at least as
long as the header, which a regex match makes at least 19 bytes. -/
theorem claim_C10 (content : List Nat) (offset : Nat) (md : MD)
    (hc : NewMDDataReader content offset = some md) (pos minSize : Nat) :
    mdRead content md.header pos minSize ≠ .panicked := by
  have hfacts := NewMDDataReader_header_facts content offset md hc
  have hgh : GoodHeader md.header := by
    obtain ⟨h19, c, hc', hcor⟩ := hfacts
    refine ⟨?_, by omega, ?_⟩
    · intro he
      rw [he] at hc'
      exact Option.noConfusion hc'
    · intro a ha
      rw [hc'] at ha
      cases ha
      rcases hcor with rfl | rfl <;> decide
  unfold mdRead
  split
  · simp
  · obtain ⟨o, ho, hoinv⟩ := readLoop_no_panic md.header minSize hgh
      (splitLines (content.drop pos)) [] [] 0 (Or.inl rfl)
    rw [ho]
    simp only [finishRead]
    split
    · rename_i heq
      exfalso
      split at heq
      · exact appendSQL_no_panic md.header hgh o.stmts o.statement hoinv heq
      · exact Option.noConfusion heq
    · simp

/-- Witness for C10 at a concrete reader and call. -/
theorem claim_C10_witness : mdRead fileC4 headerT 0 10 ≠ ReadResult.panicked :=
  claim_C10 fileC4 0 ⟨headerT, 0⟩ (by decide) 0 10

/-! ### C3: resumption — helper lemmas -/

theorem dropWhile_eq_self (p : Nat → Bool) (l : List Nat)
    (h : ∀ a, l.head? = some a → p a = false) : l.dropWhile p = l := by
  cases l with
  | nil => rfl
  | cons a t => rw [List.dropWhile_cons, if_neg (by simp [h a rfl])]

theorem trimSpace_rowline (t : List Nat) (ht : trimSpace t = t) (htne : t ≠ []) :
    trimSpace (t ++ [10]) = t := by
  obtain ⟨a, t', rfl⟩ : ∃ a t', t = a :: t' := by
    cases t with
    | nil => exact absurd rfl htne
    | cons a t' => exact ⟨a, t', rfl⟩
  have hhead : goIsSpace a = false := trimSpace_head?_not _ a (by rw [ht]; rfl)
  have hlast : ∀ b, (a :: t').getLast? = some b → goIsSpace b = false := fun b hb =>
    trimSpace_getLast?_not _ b (by rw [ht]; exact hb)
  unfold trimSpace
  rw [List.cons_append, List.dropWhile_cons, if_neg (by simp [hhead])]
  rw [show (a :: (t' ++ [10])).reverse = 10 :: (a :: t').reverse by simp]
  rw [List.dropWhile_cons, if_pos (by decide)]
  rw [dropWhile_eq_self goIsSpace (a :: t').reverse (by
    intro b hb
    rw [List.head?_reverse] at hb
    exact hlast b hb)]
  exact List.reverse_reverse _

theorem head?_append_left (x y : List Nat) (hx : x ≠ []) :
    (x ++ y).head? = x.head? := by
  cases x with
  | nil => exact absurd rfl hx
  | cons a t => rfl

theorem statement_trim (H acc t : List Nat) (hH : trimSpace H = H) (hHne : H ≠ [])
    (ht : trimSpace t = t) (htne : t ≠ []) :
    trimSpace ((H ++ acc) ++ t) = (H ++ acc) ++ t := by
  apply trimSpace_append (H ++ acc) t (by simp [hHne]) htne
  · intro a ha
    rw [head?_append_left H acc hHne] at ha
    exact trimSpace_head?_not H a (by rw [hH]; exact ha)
  · intro a ha
    exact trimSpace_getLast?_not t a (by rw [ht]; exact ha)

theorem appendSQL_emit (H : List Nat) (stacc : List (List Nat)) (sql : List Nat)
    (htrim : trimSpace sql = sql) (hpre : H <+: sql) (hlen : H.length < sql.length)
    (hsemi : sql.getLast? = some 59) :
    appendSQL H stacc sql = some (stacc ++ [sql]) := by
  simp only [appendSQL, htrim]
  rw [if_neg (by omega), if_neg (by simp [List.isPrefixOf_iff_prefix.2 hpre]),
    if_neg (by omega), if_pos hsemi]

theorem appendSQL_emit_comma (H : List Nat) (stacc : List (List Nat)) (sql : List Nat)
    (htrim : trimSpace sql = sql) (hpre : H <+: sql) (hlen : H.length < sql.length)
    (hcomma : sql.getLast? = some 44) :
    appendSQL H stacc sql = some (stacc ++ [sql.dropLast ++ [59]]) := by
  simp only [appendSQL, htrim]
  rw [if_neg (by omega), if_neg (by simp [List.isPrefixOf_iff_prefix.2 hpre]),
    if_neg (by omega), if_neg (by rw [hcomma]; simp), if_pos hcomma]

theorem appendSQL_header_drop (H : List Nat) (stacc : List (List Nat))
    (htrim : trimSpace H = H) : appendSQL H stacc H = some stacc := by
  simp only [appendSQL, htrim]
  by_cases hz : H.length = 0
  · rw [if_pos hz]
  · rw [if_neg hz, if_neg (by simp [List.isPrefixOf_iff_prefix.2 (List.prefix_refl H)])]
    simp

theorem splitLines_rows : ∀ (ts : List (List Nat)), (∀ t ∈ ts, 10 ∉ t) →
    splitLines ((ts.map (fun t => t ++ [10])).flatten) = ts.map (fun t => t ++ [10])
  | [], _ => rfl
  | t :: ts, h => by
    simp only [List.map_cons, List.flatten_cons]
    rw [splitLines_cons t _ (h t (List.mem_cons_self t ts))]
    rw [splitLines_rows ts (fun x hx => h x (List.mem_cons_of_mem t hx))]

theorem readLoop_cons_comment (header : List Nat) (m : Nat) (l : List Nat)
    (rest stacc : List (List Nat)) (statement : List Nat) (rs : Nat)
    (hne : (trimSpace l).length ≠ 0) (hcom : isCommentLine (trimSpace l) = true) :
    readLoop header m (l :: rest) stacc statement rs =
      readLoop header m rest stacc statement rs := by
  rw [readLoop_cons_eq, if_pos ⟨hne, hcom⟩]

theorem readLoop_cons_noemit (header : List Nat) (m : Nat) (l : List Nat)
    (rest stacc : List (List Nat)) (statement : List Nat) (rs : Nat)
    (hcom : ¬((trimSpace l).length ≠ 0 ∧ isCommentLine (trimSpace l) = true))
    (ht0 : ¬(trimSpace l).length = 0)
    (hsemi : ¬(if statement.length = 0 ∧ header.isPrefixOf (trimSpace l) = false
              then header ++ trimSpace l
              else statement ++ trimSpace l).getLast? = some 59) :
    readLoop header m (l :: rest) stacc statement rs =
      if m ≤ rs + l.length then
        some ⟨stacc,
          (if statement.length = 0 ∧ header.isPrefixOf (trimSpace l) = false
           then header ++ trimSpace l else statement ++ trimSpace l),
          rs + l.length, true⟩
      else readLoop header m rest stacc
        (if statement.length = 0 ∧ header.isPrefixOf (trimSpace l) = false
         then header ++ trimSpace l else statement ++ trimSpace l)
        (rs + l.length) := by
  rw [readLoop_cons_eq, if_neg hcom, if_neg ht0, if_neg hsemi]

theorem readLoop_cons_emit (header : List Nat) (m : Nat) (l : List Nat)
    (rest stacc : List (List Nat)) (statement : List Nat) (rs : Nat)
    (s : List (List Nat))
    (hcom : ¬((trimSpace l).length ≠ 0 ∧ isCommentLine (trimSpace l) = true))
    (ht0 : ¬(trimSpace l).length = 0)
    (hsemi : (if statement.length = 0 ∧ header.isPrefixOf (trimSpace l) = false
              then header ++ trimSpace l
              else statement ++ trimSpace l).getLast? = some 59)
    (happ : appendSQL header stacc
        (if statement.length = 0 ∧ header.isPrefixOf (trimSpace l) = false
         then header ++ trimSpace l else statement ++ trimSpace l) = some s) :
    readLoop header m (l :: rest) stacc statement rs =
      if m ≤ rs + l.length then some ⟨s, [], rs + l.length, true⟩
      else readLoop header m rest s [] (rs + l.length) := by
  rw [readLoop_cons_eq, if_neg hcom, if_neg ht0, if_pos hsemi, happ]

theorem readLoop_rows_noBreak (H : List Nat) (M : Nat)
    (hH : trimSpace H = H) (hHne : H ≠ []) :
    ∀ (cs : List (List Nat)) (z acc : List Nat) (stacc : List (List Nat)) (rs : Nat),
      (∀ t ∈ cs, RowOK H t ∧ t.getLast? = some 44) →
      RowOK H z → z.getLast? = some 59 →
      rs + ((cs ++ [z]).map (fun t => t.length + 1)).sum < M →
      readLoop H M ((cs ++ [z]).map (fun t => t ++ [10])) stacc (H ++ acc) rs =
        some ⟨stacc ++ [(H ++ acc) ++ (cs ++ [z]).flatten], [],
          rs + ((cs ++ [z]).map (fun t => t.length + 1)).sum, false⟩
  | [], z, acc, stacc, rs, hcs, hz, hzsemi, hM => by
    obtain ⟨hzt, hzne, hz10, hzcom, hzpre⟩ := hz
    simp only [List.nil_append, List.map_cons, List.map_nil, List.sum_cons,
      List.sum_nil] at hM ⊢
    have htr : trimSpace (z ++ [10]) = z := trimSpace_rowline z hzt hzne
    rw [readLoop_cons_emit H M (z ++ [10]) [] stacc (H ++ acc) rs
      (stacc ++ [(H ++ acc) ++ z])
      (by rw [htr]; simp [hzcom])
      (by rw [htr]; simp [hzne])
      (by rw [htr]; rw [if_neg (by simp [hHne])]; simp [List.getLast?_append, hzsemi])
      (by
        rw [htr, if_neg (by simp [hHne])]
        exact appendSQL_emit H stacc ((H ++ acc) ++ z)
          (statement_trim H acc z hH hHne hzt hzne)
          ⟨acc ++ z, by simp⟩
          (by
            have : z.length ≠ 0 := fun h => hzne (List.length_eq_zero.1 h)
            simp only [List.length_append]
            omega)
          (by simp [List.getLast?_append, hzsemi]))]
    rw [if_neg (by
      simp only [List.length_append, List.length_cons, List.length_nil]
      omega)]
    simp only [readLoop]
    simp [List.length_append]
  | c :: cs, z, acc, stacc, rs, hcs, hz, hzsemi, hM => by
    obtain ⟨⟨hct, hcne, hc10, hccom, hcpre⟩, hclast⟩ := hcs c (List.mem_cons_self c cs)
    have hcs' : ∀ t ∈ cs, RowOK H t ∧ t.getLast? = some 44 :=
      fun t ht => hcs t (List.mem_cons_of_mem c ht)
    simp only [List.cons_append, List.map_cons, List.sum_cons] at hM ⊢
    have htr : trimSpace (c ++ [10]) = c := trimSpace_rowline c hct hcne
    rw [readLoop_cons_noemit H M (c ++ [10]) _ stacc (H ++ acc) rs
      (by rw [htr]; simp [hccom])
      (by rw [htr]; simp [hcne])
      (by rw [htr, if_neg (by simp [hHne])]; simp [List.getLast?_append, hclast])]
    rw [htr]
    have hst1 : ¬((H ++ acc).length = 0 ∧ H.isPrefixOf c = false) := by simp [hHne]
    rw [if_neg hst1]
    have hbud : ¬(M ≤ rs + (c ++ [10]).length) := by
      simp only [List.length_append, List.length_cons, List.length_nil]
      omega
    rw [if_neg hbud]
    rw [show (H ++ acc) ++ c = H ++ (acc ++ c) from List.append_assoc H acc c]
    have hlenc : (c ++ [10]).length = c.length + 1 := by simp
    rw [hlenc]
    rw [readLoop_rows_noBreak H M hH hHne cs z (acc ++ c) stacc (rs + (c.length + 1))
      hcs' ⟨hz.1, hz.2.1, hz.2.2.1, hz.2.2.2.1, hz.2.2.2.2⟩ hzsemi (by omega)]
    simp only [Option.some.injEq, LoopOut.mk.injEq, and_true, true_and]
    constructor
    · simp [List.flatten_cons, List.append_assoc]
    · omega

theorem dropLast_append_ne (x y : List Nat) (hy : y ≠ []) :
    (x ++ y).dropLast = x ++ y.dropLast := by
  cases y with
  | nil => exact absurd rfl hy
  | cons a t => exact List.dropLast_append_cons

theorem replaceLast_append (x y : List Nat) (hy : y ≠ []) :
    replaceLast (x ++ y) = x ++ replaceLast y := by
  unfold replaceLast
  rw [dropLast_append_ne x y hy, List.append_assoc]

theorem replaceLast_comma (c : List Nat) (hc : c.getLast? = some 44) :
    replaceLast c = c := by
  unfold replaceLast
  exact List.dropLast_append_getLast? 44 hc

theorem drop_shift (content x rest : List Nat) (rs : Nat)
    (h : content.drop rs = x ++ rest) : content.drop (rs + x.length) = rest := by
  rw [← List.drop_drop, h, List.drop_left]

theorem rows_length_sum (ts : List (List Nat)) :
    ((ts.map (fun t => t ++ [10])).flatten).length =
      (ts.map (fun t => t.length + 1)).sum := by
  rw [List.length_flatten, List.map_map]
  congr 1
  apply List.map_congr_left
  intro t _
  simp

theorem readLoop_rows_fromEmpty (H : List Nat) (M : Nat)
    (hH : trimSpace H = H) (hHne : H ≠ []) :
    ∀ (cs : List (List Nat)) (z : List Nat) (rs : Nat),
      (∀ t ∈ cs, RowOK H t ∧ t.getLast? = some 44) →
      RowOK H z → z.getLast? = some 59 →
      rs + ((cs ++ [z]).map (fun t => t.length + 1)).sum < M →
      readLoop H M ((cs ++ [z]).map (fun t => t ++ [10])) [] [] rs =
        some ⟨[H ++ (cs ++ [z]).flatten], [],
          rs + ((cs ++ [z]).map (fun t => t.length + 1)).sum, false⟩
  | [], z, rs, hcs, hz, hzsemi, hM => by
    obtain ⟨hzt, hzne, hz10, hzcom, hzpre⟩ := hz
    simp only [List.nil_append, List.map_cons, List.map_nil, List.sum_cons,
      List.sum_nil] at hM ⊢
    have htr : trimSpace (z ++ [10]) = z := trimSpace_rowline z hzt hzne
    have hhd : ∀ a, H.head? = some a → goIsSpace a = false := fun a ha =>
      trimSpace_head?_not H a (by rw [hH]; exact ha)
    have hzl : ∀ a, z.getLast? = some a → goIsSpace a = false := fun a ha =>
      trimSpace_getLast?_not z a (by rw [hzt]; exact ha)
    rw [readLoop_cons_emit H M (z ++ [10]) [] [] [] rs [H ++ z]
      (by rw [htr]; simp [hzcom])
      (by rw [htr]; simp [hzne])
      (by rw [htr]; rw [if_pos ⟨rfl, hzpre⟩]; simp [List.getLast?_append, hzsemi])
      (by
        rw [htr, if_pos ⟨rfl, hzpre⟩]
        have := appendSQL_emit H [] (H ++ z)
          (trimSpace_append H z hHne hzne hhd hzl)
          ⟨z, rfl⟩
          (by
            have : z.length ≠ 0 := fun h => hzne (List.length_eq_zero.1 h)
            simp only [List.length_append]
            omega)
          (by simp [List.getLast?_append, hzsemi])
        simpa using this)]
    have hbud : ¬(M ≤ rs + (z ++ [10]).length) := by
      simp only [List.length_append, List.length_cons, List.length_nil]
      omega
    rw [if_neg hbud]
    simp only [readLoop]
    simp [List.length_append]
  | c :: cs, z, rs, hcs, hz, hzsemi, hM => by
    obtain ⟨⟨hct, hcne, hc10, hccom, hcpre⟩, hclast⟩ := hcs c (List.mem_cons_self c cs)
    have hcs' : ∀ t ∈ cs, RowOK H t ∧ t.getLast? = some 44 :=
      fun t ht => hcs t (List.mem_cons_of_mem c ht)
    simp only [List.cons_append, List.map_cons, List.sum_cons] at hM ⊢
    have htr : trimSpace (c ++ [10]) = c := trimSpace_rowline c hct hcne
    rw [readLoop_cons_noemit H M (c ++ [10]) _ [] [] rs
      (by rw [htr]; simp [hccom])
      (by rw [htr]; simp [hcne])
      (by rw [htr, if_pos ⟨rfl, hcpre⟩]; simp [List.getLast?_append, hclast])]
    rw [htr]
    rw [if_pos (show ([] : List Nat).length = 0 ∧ H.isPrefixOf c = false from ⟨rfl, hcpre⟩)]
    have hbud : ¬(M ≤ rs + (c ++ [10]).length) := by
      simp only [List.length_append, List.length_cons, List.length_nil]
      omega
    rw [if_neg hbud]
    have hlenc : (c ++ [10]).length = c.length + 1 := by simp
    rw [hlenc]
    have hHc : H ++ c = H ++ (([] : List Nat) ++ c) := by simp
    rw [hHc]
    rw [readLoop_rows_noBreak H M hH hHne cs z ([] ++ c) [] (rs + (c.length + 1))
      hcs' hz hzsemi (by omega)]
    simp only [Option.some.injEq, LoopOut.mk.injEq, and_true, true_and]
    constructor
    · simp [List.flatten_cons, List.append_assoc]
    · omega

theorem rows_two_pass (content H : List Nat) (N M : Nat)
    (hH : trimSpace H = H) (hHne : H ≠ [])
    (hM : content.length < M) :
    ∀ (cs : List (List Nat)) (z acc : List Nat) (rs : Nat),
      (∀ t ∈ cs, RowOK H t ∧ t.getLast? = some 44) →
      RowOK H z → z.getLast? = some 59 →
      rs < N → rs ≤ content.length →
      content.drop rs = ((cs ++ [z]).map (fun t => t ++ [10])).flatten →
      rowsPayload H (finishRead content.length 0 H
          (readLoop H N ((cs ++ [z]).map (fun t => t ++ [10])) [] (H ++ acc) rs)) ++
        rowsPayload H (mdRead content H (resPos (finishRead content.length 0 H
          (readLoop H N ((cs ++ [z]).map (fun t => t ++ [10])) [] (H ++ acc) rs))) M) =
      rowsPayload H (finishRead content.length 0 H
          (readLoop H M ((cs ++ [z]).map (fun t => t ++ [10])) [] (H ++ acc) rs))
  | [], z, acc, rs, hcs, hz, hzsemi, hrsN, hrsLen, hdrop => by
    obtain ⟨hzt, hzne, hz10, hzcom, hzpre⟩ := hz
    simp only [List.nil_append, List.map_cons, List.map_nil, List.flatten_cons,
      List.flatten_nil, List.append_nil] at hdrop ⊢
    have hzlen : z.length ≠ 0 := fun h => hzne (List.length_eq_zero.1 h)
    have hlen : content.length = rs + (z.length + 1) := by
      have h1 := congrArg List.length hdrop
      rw [List.length_drop] at h1
      simp only [List.length_append, List.length_cons, List.length_nil] at h1
      omega
    have htr := trimSpace_rowline z hzt hzne
    have hstep : ∀ mm : Nat, readLoop H mm [z ++ [10]] [] (H ++ acc) rs =
        if mm ≤ rs + (z ++ [10]).length then
          some ⟨[(H ++ acc) ++ z], [], rs + (z ++ [10]).length, true⟩
        else readLoop H mm [] [(H ++ acc) ++ z] [] (rs + (z ++ [10]).length) := by
      intro mm
      exact readLoop_cons_emit H mm (z ++ [10]) [] [] (H ++ acc) rs
        [(H ++ acc) ++ z]
        (by rw [htr]; simp [hzcom])
        (by rw [htr]; simp [hzne])
        (by rw [htr]
            rw [if_neg (show ¬((H ++ acc).length = 0 ∧
              H.isPrefixOf z = false) by simp [hHne])]
            simp [List.getLast?_append, hzsemi])
        (by
          rw [htr, if_neg (show ¬((H ++ acc).length = 0 ∧ H.isPrefixOf z = false)
            by simp [hHne])]
          have := appendSQL_emit H [] ((H ++ acc) ++ z)
            (statement_trim H acc z hH hHne hzt hzne)
            ⟨acc ++ z, by simp⟩
            (by simp only [List.length_append]; omega)
            (by simp [List.getLast?_append, hzsemi])
          simpa using this)
    have hlenz : (z ++ [10]).length = z.length + 1 := by simp
    have hfin1 : finishRead content.length 0 H
        (some ⟨[(H ++ acc) ++ z], [], rs + (z ++ [10]).length, true⟩) =
        .ok [(H ++ acc) ++ z] content.length := by
      simp only [finishRead, List.length_nil, ne_eq, not_true_eq_false, if_neg,
        ite_false, ite_true]
      congr 1
      rw [hlenz]
      omega
    have hfin2 : finishRead content.length 0 H
        (some ⟨[(H ++ acc) ++ z], [], rs + (z ++ [10]).length, false⟩) =
        .ok [(H ++ acc) ++ z] content.length := by
      simp [finishRead]
    have heof : mdRead content H content.length M = .eof := by
      simp [mdRead]
    rw [hstep N, hstep M]
    have hMne : ¬(M ≤ rs + (z ++ [10]).length) := by
      rw [hlenz]
      omega
    rw [if_neg hMne]
    simp only [readLoop]
    rw [hfin2]
    by_cases hbN : N ≤ rs + (z ++ [10]).length
    · rw [if_pos hbN, hfin1]
      simp only [resPos]
      rw [heof]
      simp [rowsPayload]
    · rw [if_neg hbN]
      rw [hfin2]
      simp only [resPos]
      rw [heof]
      simp [rowsPayload]
  | c :: cs, z, acc, rs, hcs, hz, hzsemi, hrsN, hrsLen, hdrop => by
    obtain ⟨⟨hct, hcne, hc10, hccom, hcpre⟩, hclast⟩ := hcs c (List.mem_cons_self c cs)
    have hcs' : ∀ t ∈ cs, RowOK H t ∧ t.getLast? = some 44 :=
      fun t ht => hcs t (List.mem_cons_of_mem c ht)
    obtain ⟨hzt, hzne, hz10, hzcom, hzpre⟩ := hz
    simp only [List.cons_append, List.map_cons, List.flatten_cons] at hdrop ⊢
    have htr := trimSpace_rowline c hct hcne
    have hclen : (c ++ [10]).length = c.length + 1 := by simp
    have hdrop' : content.drop (rs + (c.length + 1)) =
        ((cs ++ [z]).map (fun t => t ++ [10])).flatten := by
      have h2 := drop_shift content (c ++ [10])
        (((cs ++ [z]).map (fun t => t ++ [10])).flatten) rs hdrop
      rw [hclen] at h2
      exact h2
    have hSpos : 0 < ((cs ++ [z]).map (fun t => t.length + 1)).sum := by
      have hzmem : z.length + 1 ∈ (cs ++ [z]).map (fun t => t.length + 1) :=
        List.mem_map_of_mem _ (by simp)
      have := List.single_le_sum (fun x _ => Nat.zero_le x) _ hzmem
      omega
    have hlenTot : content.length =
        rs + (c.length + 1) + ((cs ++ [z]).map (fun t => t.length + 1)).sum := by
      have h4 := congrArg List.length hdrop
      rw [List.length_drop] at h4
      simp only [List.length_append, List.length_cons, List.length_nil,
        rows_length_sum] at h4
      omega
    have hstep : ∀ mm : Nat,
        readLoop H mm ((c ++ [10]) :: (cs ++ [z]).map (fun t => t ++ [10]))
          [] (H ++ acc) rs =
        if mm ≤ rs + (c ++ [10]).length then
          some ⟨[], (H ++ acc) ++ c, rs + (c ++ [10]).length, true⟩
        else readLoop H mm ((cs ++ [z]).map (fun t => t ++ [10])) []
          ((H ++ acc) ++ c) (rs + (c ++ [10]).length) := by
      intro mm
      rw [readLoop_cons_noemit H mm (c ++ [10]) _ [] (H ++ acc) rs
        (by rw [htr]; simp [hccom])
        (by rw [htr]; simp [hcne])
        (by rw [htr]
            rw [if_neg (show ¬((H ++ acc).length = 0 ∧ H.isPrefixOf c = false)
              by simp [hHne])]
            simp [List.getLast?_append, hclast])]
      rw [htr]
      rw [if_neg (show ¬((H ++ acc).length = 0 ∧ H.isPrefixOf c = false)
        by simp [hHne])]
    rw [hstep N, hstep M]
    have hMne : ¬(M ≤ rs + (c ++ [10]).length) := by
      rw [hclen]
      omega
    rw [if_neg hMne]
    by_cases hbN : N ≤ rs + (c ++ [10]).length
    · rw [if_pos hbN]
      have hfin1 : finishRead content.length 0 H
          (some ⟨[], (H ++ acc) ++ c, rs + (c ++ [10]).length, true⟩) =
          .ok [(H ++ acc) ++ (c.dropLast ++ [59])] (0 + (rs + (c ++ [10]).length)) := by
        simp only [finishRead]
        rw [if_pos (show ¬((H ++ acc) ++ c).length = 0 by simp [hHne])]
        rw [appendSQL_emit_comma H [] ((H ++ acc) ++ c)
          (statement_trim H acc c hH hHne hct hcne)
          ⟨acc ++ c, by simp⟩
          (by
            have hc0 : c.length ≠ 0 := fun h => hcne (List.length_eq_zero.1 h)
            simp only [List.length_append]
            omega)
          (by simp [List.getLast?_append, hclast])]
        rw [show ((H ++ acc) ++ c).dropLast ++ [59] = (H ++ acc) ++ (c.dropLast ++ [59])
          from by rw [dropLast_append_ne _ c hcne, List.append_assoc]]
        rfl
      rw [hfin1]
      simp only [resPos]
      have hpos : 0 + (rs + (c ++ [10]).length) = rs + (c.length + 1) := by
        rw [hclen]
        omega
      rw [hpos]
      have hrows10 : ∀ t ∈ cs ++ [z], 10 ∉ t := by
        intro t ht
        rcases List.mem_append.1 ht with ht | ht
        · exact ((hcs' t ht).1).2.2.1
        · rcases List.mem_singleton.1 ht with rfl
          exact hz10
      have hpass2 : mdRead content H (rs + (c.length + 1)) M =
          .ok [H ++ (cs ++ [z]).flatten] content.length := by
        simp only [mdRead]
        rw [if_neg (show ¬(content.length ≤ rs + (c.length + 1)) by omega)]
        rw [hdrop', splitLines_rows (cs ++ [z]) hrows10]
        rw [readLoop_rows_fromEmpty H M hH hHne cs z 0 hcs'
          ⟨hzt, hzne, hz10, hzcom, hzpre⟩ hzsemi (by omega)]
        rfl
      rw [hpass2]
      rw [show (H ++ acc) ++ c = H ++ (acc ++ c) from List.append_assoc H acc c]
      rw [hclen]
      rw [readLoop_rows_noBreak H M hH hHne cs z (acc ++ c) [] (rs + (c.length + 1))
        hcs' ⟨hzt, hzne, hz10, hzcom, hzpre⟩ hzsemi (by omega)]
      have hflatne : (cs ++ [z]).flatten ≠ [] := by
        intro he
        have h5 := congrArg List.length he
        simp only [List.length_flatten, List.length_nil] at h5
        have hzmem : z.length ∈ (cs ++ [z]).map List.length :=
          List.mem_map_of_mem _ (by simp)
        have h6 := List.single_le_sum (fun x _ => Nat.zero_le x) _ hzmem
        have hz1 : z.length ≠ 0 := fun h => hzne (List.length_eq_zero.1 h)
        omega
      have hfinR : finishRead content.length 0 H
          (some ⟨[] ++ [(H ++ (acc ++ c)) ++ (cs ++ [z]).flatten], [],
            rs + (c.length + 1) + ((cs ++ [z]).map (fun t => t.length + 1)).sum,
            false⟩) =
          .ok [(H ++ (acc ++ c)) ++ (cs ++ [z]).flatten] content.length := rfl
      rw [hfinR]
      have hP : ∀ (s : List Nat) (p : Nat),
          rowsPayload H (.ok [s] p) = replaceLast (s.drop H.length) := by
        intro s p
        simp [rowsPayload]
      rw [hP, hP, hP]
      rw [show (H ++ acc) ++ (c.dropLast ++ [59]) = H ++ (acc ++ (c.dropLast ++ [59]))
        from List.append_assoc H acc (c.dropLast ++ [59])]
      rw [show (H ++ (acc ++ c)) ++ (cs ++ [z]).flatten =
        H ++ ((acc ++ c) ++ (cs ++ [z]).flatten)
        from List.append_assoc H (acc ++ c) ((cs ++ [z]).flatten)]
      rw [List.drop_left, List.drop_left, List.drop_left]
      rw [replaceLast_append acc (c.dropLast ++ [59]) (by simp)]
      rw [show replaceLast (c.dropLast ++ [59]) = c.dropLast ++ [44] from by
        unfold replaceLast
        rw [List.dropLast_concat]]
      rw [show c.dropLast ++ [44] = c from replaceLast_comma c hclast]
      rw [replaceLast_append (acc ++ c) ((cs ++ [z]).flatten) hflatne]
    · rw [if_neg hbN]
      rw [show (H ++ acc) ++ c = H ++ (acc ++ c) from List.append_assoc H acc c]
      rw [hclen]
      exact rows_two_pass content H N M hH hHne hM cs z (acc ++ c)
        (rs + (c.length + 1)) hcs' ⟨hzt, hzne, hz10, hzcom, hzpre⟩ hzsemi
        (by omega) (by omega) hdrop'

/-- C3: on an annotation-free dump file (header line followed by value-row
lines, all but the last ending in `,` and the last in `;`), reading in two
passes — one budget-limited `Read(N)` from offset 0, then one `Read` from the
reported position that covers the rest — yields exactly the same value rows,
in order and with their separators normalised, as one `Read` covering the
whole file; the grouping into emitted statements is all that differs.  This
holds for every budget `N`, because a budget-limited `Read` repositions the
handle to exactly `startPosition + bytesConsumed`. -/
theorem claim_C3 (H : List Nat) (cs : List (List Nat)) (z : List Nat) (N M : Nat)
    (hH : trimSpace H = H) (hHne : H ≠ []) (hH10 : 10 ∉ H)
    (hHcom : isCommentLine H = false) (hHsemi : ¬H.getLast? = some 59)
    (hrows : ∀ t ∈ cs, RowOK H t ∧ t.getLast? = some 44)
    (hz : RowOK H z) (hzsemi : z.getLast? = some 59)
    (hM : (mkContent H (cs ++ [z])).length < M) :
    rowsPayload H (mdRead (mkContent H (cs ++ [z])) H 0 N) ++
      rowsPayload H (mdRead (mkContent H (cs ++ [z])) H
        (resPos (mdRead (mkContent H (cs ++ [z])) H 0 N)) M) =
    rowsPayload H (mdRead (mkContent H (cs ++ [z])) H 0 M) := by
  obtain ⟨hzt, hzne, hz10, hzcom, hzpre⟩ := hz
  have hrows10 : ∀ t ∈ cs ++ [z], 10 ∉ t := by
    intro t ht
    rcases List.mem_append.1 ht with ht | ht
    · exact ((hrows t ht).1).2.2.1
    · rcases List.mem_singleton.1 ht with rfl
      exact hz10
  have hSpos : 0 < ((cs ++ [z]).map (fun t => t.length + 1)).sum := by
    have hzmem : z.length + 1 ∈ (cs ++ [z]).map (fun t => t.length + 1) :=
      List.mem_map_of_mem _ (by simp)
    have := List.single_le_sum (fun x _ => Nat.zero_le x) _ hzmem
    omega
  have hClen : (mkContent H (cs ++ [z])).length =
      H.length + 1 + ((cs ++ [z]).map (fun t => t.length + 1)).sum := by
    simp only [mkContent, List.length_append, List.length_cons, List.length_nil,
      rows_length_sum]
  have hHlen : (H ++ [10]).length = H.length + 1 := by simp
  have hsplit : splitLines (mkContent H (cs ++ [z])) =
      (H ++ [10]) :: (cs ++ [z]).map (fun t => t ++ [10]) := by
    unfold mkContent
    rw [splitLines_cons H _ hH10, splitLines_rows _ hrows10]
  have hmd0 : ∀ mm : Nat, mdRead (mkContent H (cs ++ [z])) H 0 mm =
      finishRead (mkContent H (cs ++ [z])).length 0 H
        (readLoop H mm ((H ++ [10]) :: (cs ++ [z]).map (fun t => t ++ [10]))
          [] [] 0) := by
    intro mm
    simp only [mdRead]
    rw [if_neg (show ¬((mkContent H (cs ++ [z])).length ≤ 0) by omega)]
    rw [List.drop_zero, hsplit]
  have htrH : trimSpace (H ++ [10]) = H := trimSpace_rowline H hH hHne
  have hstep0 : ∀ mm : Nat,
      readLoop H mm ((H ++ [10]) :: (cs ++ [z]).map (fun t => t ++ [10])) [] [] 0 =
      if mm ≤ 0 + (H ++ [10]).length then
        some ⟨[], [] ++ H, 0 + (H ++ [10]).length, true⟩
      else readLoop H mm ((cs ++ [z]).map (fun t => t ++ [10])) []
        ([] ++ H) (0 + (H ++ [10]).length) := by
    intro mm
    rw [readLoop_cons_noemit H mm (H ++ [10]) _ [] [] 0
      (by rw [htrH]; simp [hHcom])
      (by rw [htrH]; simp [hHne])
      (by rw [htrH]
          rw [if_neg (show ¬(([] : List Nat).length = 0 ∧ H.isPrefixOf H = false) by
            simp [List.isPrefixOf_iff_prefix.2 (List.prefix_refl H)])]
          simpa using hHsemi)]
    rw [htrH]
    rw [if_neg (show ¬(([] : List Nat).length = 0 ∧ H.isPrefixOf H = false) by
      simp [List.isPrefixOf_iff_prefix.2 (List.prefix_refl H)])]
  rw [hmd0 N, hmd0 M, hstep0 N, hstep0 M]
  have hMne : ¬(M ≤ 0 + (H ++ [10]).length) := by
    rw [hHlen]
    omega
  rw [if_neg hMne]
  have hdropH : (mkContent H (cs ++ [z])).drop (H.length + 1) =
      ((cs ++ [z]).map (fun t => t ++ [10])).flatten := by
    unfold mkContent
    exact List.drop_left' (by simp)
  have hpos1 : 0 + (0 + (H ++ [10]).length) = H.length + 1 := by
    rw [hHlen]
    omega
  have hpos2 : 0 + (H ++ [10]).length = H.length + 1 := by
    rw [hHlen]
    omega
  have hnilH : ([] : List Nat) ++ H = H ++ ([] : List Nat) := by simp
  by_cases hbN0 : N ≤ 0 + (H ++ [10]).length
  · rw [if_pos hbN0]
    have hfin1 : finishRead (mkContent H (cs ++ [z])).length 0 H
        (some ⟨[], [] ++ H, 0 + (H ++ [10]).length, true⟩) =
        .ok [] (0 + (0 + (H ++ [10]).length)) := by
      simp only [finishRead]
      rw [if_pos (show ¬(([] : List Nat) ++ H).length = 0 by simp [hHne])]
      rw [show ([] : List Nat) ++ H = H from by simp]
      rw [appendSQL_header_drop H [] hH]
      simp
    rw [hfin1]
    simp only [resPos]
    rw [hpos1]
    have hpass2 : mdRead (mkContent H (cs ++ [z])) H (H.length + 1) M =
        .ok [H ++ (cs ++ [z]).flatten] (mkContent H (cs ++ [z])).length := by
      simp only [mdRead]
      rw [if_neg (show ¬((mkContent H (cs ++ [z])).length ≤ H.length + 1) by omega)]
      rw [hdropH, splitLines_rows _ hrows10]
      rw [readLoop_rows_fromEmpty H M hH hHne cs z 0 hrows
        ⟨hzt, hzne, hz10, hzcom, hzpre⟩ hzsemi (by omega)]
      rfl
    rw [hpass2]
    rw [hnilH, hpos2]
    rw [readLoop_rows_noBreak H M hH hHne cs z [] [] (H.length + 1) hrows
      ⟨hzt, hzne, hz10, hzcom, hzpre⟩ hzsemi (by omega)]
    have hfinR : finishRead (mkContent H (cs ++ [z])).length 0 H
        (some ⟨[] ++ [(H ++ []) ++ (cs ++ [z]).flatten], [],
          H.length + 1 + ((cs ++ [z]).map (fun t => t.length + 1)).sum, false⟩) =
        .ok [(H ++ []) ++ (cs ++ [z]).flatten] (mkContent H (cs ++ [z])).length := rfl
    rw [hfinR]
    rw [show ((H ++ ([] : List Nat)) ++ (cs ++ [z]).flatten) =
      H ++ (cs ++ [z]).flatten from by simp]
    simp [rowsPayload]
  · rw [if_neg hbN0]
    rw [hnilH, hpos2]
    exact rows_two_pass (mkContent H (cs ++ [z])) H N M hH hHne hM cs z []
      (H.length + 1) hrows ⟨hzt, hzne, hz10, hzcom, hzpre⟩ hzsemi
      (by rw [hHlen] at hbN0; omega) (by omega) hdropH

/-- Witness for C3: the spec's concrete four-line file with budget 10. -/
theorem claim_C3_witness :
    rowsPayload headerT
        (mdRead (mkContent headerT [bytes "(1),", bytes "(2),", bytes "(3);"])
          headerT 0 10) ++
      rowsPayload headerT
        (mdRead (mkContent headerT [bytes "(1),", bytes "(2),", bytes "(3);"])
          headerT
          (resPos (mdRead (mkContent headerT [bytes "(1),", bytes "(2),", bytes "(3);"])
            headerT 0 10)) 100) =
    rowsPayload headerT
      (mdRead (mkContent headerT [bytes "(1),", bytes "(2),", bytes "(3);"])
        headerT 0 100) :=
  claim_C3 headerT [bytes "(1),", bytes "(2),"] (bytes "(3);") 10 100
    (by decide) (by decide) (by decide) (by decide) (by decide)
    (by
      intro t ht
      unfold RowOK
      fin_cases ht <;> exact ⟨by decide, by decide⟩)
    (by unfold RowOK; decide) (by decide) (by decide)

end PDReader
